import Mathlib

/- Verification development for the LinkedIn job-search pipeline
   (src/index.ts of the repository).

   The TypeScript source is shallowly embedded below:
   - the Query class (constructor normalization, filter lookup tables and
     the url method that builds the request URL, which doubles as the
     cache key),
   - the JobCache class (a TTL key/value store over Date.now timestamps,
     with an explicit now parameter replacing the ambient clock),
   - the getJobs pagination loop (fetchJobBatch is abstracted as an
     oracle F taking the index of the call and the current offset; the
     loop additionally records a trace of fetch/backoff/pace actions and
     a stop reason, so that theorems can speak about which offsets were
     requested and which delays were inserted),
   - parseJobList (the cheerio selector layer is abstracted: a page is
     either unparseable, or a list of candidate items, each of which is
     either an item whose per-item extraction throws, or a record of the
     raw strings and attributes the fixed selectors would return). -/

namespace LinkedIn

/-- Output record of the extractor (interface JobData in src/index.ts). -/
structure JobData where
  position : String
  company : String
  location : String
  date : Option String
  salary : String
  jobUrl : String
  companyLogo : String
  agoTime : String
deriving DecidableEq

/-- Whitespace characters of the JavaScript regex class backslash-s
    (also the set used by String.prototype.trim). -/
def isJsWs (c : Char) : Bool :=
  c == ' ' || c == '\t' || c == '\n' || c == '\r' ||
  c == Char.ofNat 11 || c == Char.ofNat 12 ||
  c == Char.ofNat 0xa0 || c == Char.ofNat 0x1680 ||
  (Char.ofNat 0x2000 ≤ c && c ≤ Char.ofNat 0x200a) ||
  c == Char.ofNat 0x2028 || c == Char.ofNat 0x2029 ||
  c == Char.ofNat 0x202f || c == Char.ofNat 0x205f ||
  c == Char.ofNat 0x3000 || c == Char.ofNat 0xfeff

/-- JavaScript String.prototype.trim. -/
def jsTrim (s : String) : String :=
  ⟨((s.data.dropWhile isJsWs).reverse.dropWhile isJsWs).reverse⟩

/-- One pass of the regex replace of whitespace runs: the Bool argument
    records whether we are inside a run that has already emitted sep. -/
def collapseGo (sep : Char) : Bool → List Char → List Char
  | _, [] => []
  | inRun, c :: rest =>
    if isJsWs c then
      if inRun then collapseGo sep true rest
      else sep :: collapseGo sep true rest
    else c :: collapseGo sep false rest

/-- JavaScript s.replace(whitespace-run regex, sep): every maximal run of
    whitespace characters becomes the single character sep. -/
def jsCollapseWs (sep : Char) (s : String) : String := ⟨collapseGo sep false s.data⟩

/-- Keyword/location normalization of the Query constructor:
    trim, then replace each whitespace run by "+". -/
def normalizeKW (s : String) : String := jsCollapseWs '+' (jsTrim s)

/-- ASCII case mapping of String.prototype.toLowerCase (the lookup-table
    keys are all ASCII, so this is the part of toLowerCase the source
    exercises). -/
def jsToLowerChar (c : Char) : Char :=
  if 'A' ≤ c ∧ c ≤ 'Z' then Char.ofNat (c.toNat + 32) else c

def jsToLower (s : String) : String := ⟨s.data.map jsToLowerChar⟩

/-- The Query class fields after the constructor ran. -/
structure Query where
  host : String
  keyword : String
  location : String
  dateSincePosted : String
  jobType : String
  remoteFilter : String
  salary : String
  experienceLevel : String
  sortBy : String
  limit : Int
  page : Int
deriving DecidableEq

/-- Result of the JavaScript Number(...) coercion: NaN or a number
    (the numbers the source manipulates are integral). -/
inductive JsNum
  | nan
  | num (n : Int)
deriving DecidableEq

/-- JavaScript Number(x) followed by the or-zero default (Number(x) || 0):
    undefined and NaN collapse to 0. -/
def jsNumOrZero : Option JsNum → Int
  | none => 0
  | some .nan => 0
  | some (.num n) => n

/-- JavaScript x || d for strings: undefined and the empty string are
    falsy and give the default. -/
def jsOrDefault (o : Option String) (d : String) : String :=
  match o with
  | none => d
  | some s => if s = "" then d else s

/-- The QueryObject input of the Query constructor; absent fields are none. -/
structure QueryObject where
  host : Option String := none
  keyword : Option String := none
  location : Option String := none
  dateSincePosted : Option String := none
  jobType : Option String := none
  remoteFilter : Option String := none
  salary : Option String := none
  experienceLevel : Option String := none
  sortBy : Option String := none
  limit : Option JsNum := none
  page : Option JsNum := none
deriving DecidableEq

/-- The Query constructor (lines 152-164 of src/index.ts). -/
def Query.ofObject (o : QueryObject) : Query where
  host := jsOrDefault o.host "www.linkedin.com"
  keyword := match o.keyword with | none => "" | some s => normalizeKW s
  location := match o.location with | none => "" | some s => normalizeKW s
  dateSincePosted := jsOrDefault o.dateSincePosted ""
  jobType := jsOrDefault o.jobType ""
  remoteFilter := jsOrDefault o.remoteFilter ""
  salary := jsOrDefault o.salary ""
  experienceLevel := jsOrDefault o.experienceLevel ""
  sortBy := jsOrDefault o.sortBy ""
  limit := jsNumOrZero o.limit
  page := jsNumOrZero o.page

/-- Association-list lookup modelling JavaScript object-literal indexing
    (the object keys of the filter tables) and Map.get (the cache). -/
def assocLookup {β : Type} (k : String) : List (String × β) → Option β
  | [] => none
  | (k', v) :: rest => if k = k' then some v else assocLookup k rest

def dateRange : List (String × String) :=
  [("past month", "r2592000"), ("past week", "r604800"), ("24hr", "r86400")]

def experienceRange : List (String × String) :=
  [("internship", "1"), ("entry level", "2"), ("associate", "3"),
   ("senior", "4"), ("director", "5"), ("executive", "6")]

def jobTypeRange : List (String × String) :=
  [("full time", "F"), ("full-time", "F"), ("part time", "P"),
   ("part-time", "P"), ("contract", "C"), ("temporary", "T"),
   ("volunteer", "V"), ("internship", "I")]

def remoteFilterRange : List (String × String) :=
  [("on-site", "1"), ("on site", "1"), ("remote", "2"), ("hybrid", "3")]

def salaryRange : List (String × String) :=
  [("40000", "1"), ("60000", "2"), ("80000", "3"),
   ("100000", "4"), ("120000", "5")]

def Query.getDateSincePosted (q : Query) : String :=
  (assocLookup (jsToLower q.dateSincePosted) dateRange).getD ""

def Query.getExperienceLevel (q : Query) : String :=
  (assocLookup (jsToLower q.experienceLevel) experienceRange).getD ""

def Query.getJobType (q : Query) : String :=
  (assocLookup (jsToLower q.jobType) jobTypeRange).getD ""

def Query.getRemoteFilter (q : Query) : String :=
  (assocLookup (jsToLower q.remoteFilter) remoteFilterRange).getD ""

def Query.getSalary (q : Query) : String :=
  (assocLookup q.salary salaryRange).getD ""

def Query.getPage (q : Query) : Int := q.page * 25

/-- The sortBy parameter value appended by url: "recent" maps to DD,
    "relevant" to R, anything else appends nothing. -/
def Query.sortToken (q : Query) : Option String :=
  if q.sortBy = "recent" then some "DD"
  else if q.sortBy = "relevant" then some "R"
  else none

/-- Characters URLSearchParams serialization leaves unchanged
    (application/x-www-form-urlencoded unreserved set). -/
def isUrlSafe (c : Char) : Bool :=
  ('0' ≤ c && c ≤ '9') || ('A' ≤ c && c ≤ 'Z') || ('a' ≤ c && c ≤ 'z') ||
  c == '*' || c == '-' || c == '.' || c == '_'

/-- Uppercase hexadecimal digit. -/
def hexDigit (n : Nat) : Char :=
  if n < 10 then Char.ofNat (48 + n) else Char.ofNat (55 + n)

/-- UTF-8 byte sequence of a Unicode scalar value. -/
def utf8Bytes (n : Nat) : List Nat :=
  if n < 0x80 then [n]
  else if n < 0x800 then [0xc0 + n / 64, 0x80 + n % 64]
  else if n < 0x10000 then [0xe0 + n / 4096, 0x80 + n / 64 % 64, 0x80 + n % 64]
  else [0xf0 + n / 262144, 0x80 + n / 4096 % 64, 0x80 + n / 64 % 64, 0x80 + n % 64]

def joinAll {α : Type} : List (List α) → List α
  | [] => []
  | l :: r => l ++ joinAll r

/-- Percent-encoding of one byte. -/
def percentByte (b : Nat) : List Char := ['%', hexDigit (b / 16), hexDigit (b % 16)]

/-- URLSearchParams encoding of a single character. -/
def encodeChar (c : Char) : List Char :=
  if isUrlSafe c then [c]
  else if c = ' ' then ['+']
  else joinAll ((utf8Bytes c.toNat).map percentByte)

/-- URLSearchParams encoding of a string value. -/
def encodeStr (s : String) : List Char := joinAll (s.data.map encodeChar)

/-- One key=value field of the serialized query string. -/
def fieldChars (p : String × String) : List Char := p.1.data ++ '=' :: encodeStr p.2

/-- URLSearchParams.toString: fields joined with ampersands. -/
def serializeFields : List (List Char) → List Char
  | [] => []
  | [f] => f
  | f :: g :: r => f ++ '&' :: serializeFields (g :: r)

/-- A parameter appended only when its guard is truthy. -/
def optParam (cond : Prop) [Decidable cond] (k v : String) : List (String × String) :=
  if cond then [(k, v)] else []

/-- Decimal digit characters of a natural number. -/
def jsNatChars (n : Nat) : List Char :=
  if n = 0 then ['0'] else ((Nat.digits 10 n).map Nat.digitChar).reverse

/-- JavaScript Number.prototype.toString for the integral numbers the
    source produces. -/
def jsIntToString (m : Int) : String :=
  if m < 0 then ⟨'-' :: jsNatChars m.natAbs⟩ else ⟨jsNatChars m.toNat⟩

/-- The parameter list the url method appends, in source order
    (lines 230-245 of src/index.ts). -/
def rawParams (q : Query) (start : Int) : List (String × String) :=
  optParam (q.keyword ≠ "") "keywords" q.keyword ++
  optParam (q.location ≠ "") "location" q.location ++
  optParam (q.getDateSincePosted ≠ "") "f_TPR" q.getDateSincePosted ++
  optParam (q.getSalary ≠ "") "f_SB2" q.getSalary ++
  optParam (q.getExperienceLevel ≠ "") "f_E" q.getExperienceLevel ++
  optParam (q.getRemoteFilter ≠ "") "f_WT" q.getRemoteFilter ++
  optParam (q.getJobType ≠ "") "f_JT" q.getJobType ++
  [("start", jsIntToString (start + q.getPage))] ++
  (match q.sortToken with | some t => [("sortBy", t)] | none => [])

def serializeParams (ps : List (String × String)) : List Char :=
  serializeFields (ps.map fieldChars)

/-- Query.url (lines 227-248 of src/index.ts): the fixed prefix, the host,
    the fixed path ending in a question mark, then the serialized params.
    url 0 is also the cache key. -/
def Query.url (q : Query) (start : Int) : String :=
  ⟨"https://".data ++ q.host.data ++
   "/jobs-guest/jobs/api/seeMoreJobPostings/search".data ++
   '?' :: serializeParams (rawParams q start)⟩

/-- Cache TTL: one hour of milliseconds. -/
def TTL : Nat := 1000 * 60 * 60

structure CacheEntry where
  data : List JobData
  timestamp : Nat
deriving DecidableEq

/-- The JobCache class: entries with their Date.now creation timestamps.
    The insertion-ordered Map is modelled as an association list with
    unique keys. -/
structure JobCache where
  entries : List (String × CacheEntry)
deriving DecidableEq

/-- JobCache.set: store the value under the key with timestamp now. -/
def JobCache.set (c : JobCache) (key : String) (value : List JobData) (now : Nat) :
    JobCache :=
  ⟨(key, ⟨value, now⟩) :: c.entries.filter (fun e => decide (e.1 ≠ key))⟩

/-- JobCache.get: absent gives null; an entry older than TTL is deleted
    and gives null; otherwise the stored data is returned. The returned
    cache is the (possibly shrunk) state after the call. -/
def JobCache.get (c : JobCache) (key : String) (now : Nat) :
    Option (List JobData) × JobCache :=
  match assocLookup key c.entries with
  | none => (none, c)
  | some e =>
    if now - e.timestamp > TTL then
      (none, ⟨c.entries.filter (fun x => decide (x.1 ≠ key))⟩)
    else (some e.data, c)

/-- The iteration body of JobCache.clear: delete each entry strictly
    older than TTL, keep the rest. -/
def clearSweep (now : Nat) : List (String × CacheEntry) → List (String × CacheEntry)
  | [] => []
  | e :: rest =>
    if now - e.2.timestamp > TTL then clearSweep now rest
    else e :: clearSweep now rest

/-- JobCache.clear: sweep every expired entry. -/
def JobCache.clear (c : JobCache) (now : Nat) : JobCache := ⟨clearSweep now c.entries⟩

def JobCache.getCacheSize (c : JobCache) : Nat := c.entries.length

/-- Loop variables of getJobs. -/
structure LoopState where
  allJobs : List JobData
  start : Nat
  consecutiveErrors : Nat
deriving DecidableEq

/-- Why the pagination loop stopped (instrumentation mirroring the three
    break sites of getJobs). -/
inductive StopReason
  | emptyPage
  | limitReached
  | errorThreshold
deriving DecidableEq

/-- Observable actions of one getJobs run: a fetchJobBatch call at an
    offset together with its outcome (none models a rejected promise),
    the inter-page pacing delay, and the exponential-backoff delay in
    milliseconds. -/
inductive LoopAction
  | fetch (start : Nat) (result : Option (List JobData))
  | pace
  | backoff (ms : Nat)
deriving DecidableEq

/-- JavaScript Array.prototype.slice(0, e). -/
def jsSlice0 {α : Type} (l : List α) (e : Int) : List α :=
  if e < 0 then l.take ((l.length : Int) + e).toNat else l.take e.toNat

def MAX_CONSECUTIVE_ERRORS : Nat := 3

def BATCH_SIZE : Nat := 25

/-- The while loop of getJobs (lines 267-305 of src/index.ts). F is the
    fetchJobBatch oracle, taking the index of the call and the offset;
    fuel bounds the number of iterations (the code has no such bound, so
    a run that needs more iterations yields none). -/
def runLoop (L : Int) (F : Nat → Nat → Option (List JobData)) :
    Nat → Nat → LoopState → Option (List LoopAction × List JobData × StopReason)
  | 0, _, _ => none
  | fuel + 1, k, s =>
    match F k s.start with
    | some jobs =>
      if jobs = [] then
        some ([.fetch s.start (some jobs)], s.allJobs, .emptyPage)
      else if L ≠ 0 ∧ L ≤ ((s.allJobs ++ jobs).length : Int) then
        some ([.fetch s.start (some jobs)], jsSlice0 (s.allJobs ++ jobs) L, .limitReached)
      else
        (runLoop L F fuel (k + 1) ⟨s.allJobs ++ jobs, s.start + BATCH_SIZE, 0⟩).map
          (fun x => (.fetch s.start (some jobs) :: .pace :: x.1, x.2))
    | none =>
      if s.consecutiveErrors + 1 ≥ MAX_CONSECUTIVE_ERRORS then
        some ([.fetch s.start none], s.allJobs, .errorThreshold)
      else
        (runLoop L F fuel (k + 1) ⟨s.allJobs, s.start, s.consecutiveErrors + 1⟩).map
          (fun x =>
            (.fetch s.start none :: .backoff (2 ^ (s.consecutiveErrors + 1) * 1000) :: x.1,
             x.2))

/-- getJobs (lines 250-317 of src/index.ts): cache check at the key
    url 0, then the pagination loop from offset 0, then the write-through
    of a non-empty result under the same key. -/
def getJobs (q : Query) (c : JobCache) (now : Nat)
    (F : Nat → Nat → Option (List JobData)) (fuel : Nat) :
    Option (List JobData × JobCache × List LoopAction) :=
  let key := q.url 0
  let r := c.get key now
  match r.1 with
  | some jobs => some (jobs, r.2, [])
  | none =>
    match runLoop q.limit F fuel 0 ⟨[], 0, 0⟩ with
    | none => none
    | some (tr, jobs, _) =>
      some (jobs, if jobs.length > 0 then r.2.set key jobs now else r.2, tr)

/-- The successful non-empty pages recorded in a trace, in order. -/
def fetchedPages : List LoopAction → List (List JobData)
  | [] => []
  | .fetch _ (some jobs) :: tr => jobs :: fetchedPages tr
  | .fetch _ none :: tr => fetchedPages tr
  | .pace :: tr => fetchedPages tr
  | .backoff _ :: tr => fetchedPages tr

/-- Concatenation of every page a trace fetched successfully. -/
def pagesJoin (tr : List LoopAction) : List JobData := joinAll (fetchedPages tr)

/-- The raw values the fixed cheerio selectors read off one candidate
    li item (lines 361-376 of src/index.ts): text() results for the
    class selectors, attr() results for the attribute reads. -/
structure RawItem where
  positionText : String
  companyText : String
  locationText : String
  dateAttr : Option String
  salaryText : String
  jobUrlAttr : Option String
  companyLogoAttr : Option String
  agoTimeText : String
deriving DecidableEq

/-- The per-item body of parseJobList (lines 360-395 of src/index.ts):
    null exactly when the trimmed position or the trimmed company is
    empty; salary is whitespace-collapsed and defaulted to
    "Not specified"; missing url/logo attributes default to "". -/
def parseJobItem (it : RawItem) : Option JobData :=
  let position := jsTrim it.positionText
  let company := jsTrim it.companyText
  if position = "" ∨ company = "" then none
  else
    let salary := jsCollapseWs ' ' (jsTrim it.salaryText)
    some { position := position
           company := company
           location := jsTrim it.locationText
           date := it.dateAttr
           salary := if salary = "" then "Not specified" else salary
           jobUrl := it.jobUrlAttr.getD ""
           companyLogo := it.companyLogoAttr.getD ""
           agoTime := jsTrim it.agoTimeText }

/-- parseJobList (lines 353-403 of src/index.ts). The page argument is
    none when cheerio fails to parse the page at all; otherwise it is the
    list of candidate items, where a none item is one whose per-item
    extraction throws (the catch branch returning null). -/
def parseJobList (page : Option (List (Option RawItem))) : List JobData :=
  match page with
  | none => []
  | some items => (items.map (fun it => it.bind parseJobItem)).filterMap id

/-- The normalized query as far as the request URL is concerned: the
    host, the normalized keyword and location, the mapped filter tokens,
    the sort parameter value and the page multiplier. The stored limit
    is deliberately not a field: the URL does not encode it. -/
structure NormQuery where
  host : String
  keyword : String
  location : String
  dateToken : String
  salaryToken : String
  experienceToken : String
  remoteToken : String
  jobTypeToken : String
  sortParam : Option String
  page : Int
deriving DecidableEq

/-- The URL-relevant normalized form of a Query. -/
def Query.normNoLimit (q : Query) : NormQuery :=
  ⟨q.host, q.keyword, q.location, q.getDateSincePosted, q.getSalary,
   q.getExperienceLevel, q.getRemoteFilter, q.getJobType, q.sortToken, q.page⟩

/- ------------------------------------------------------------------ -/
/- Helper lemmas                                                       -/
/- ------------------------------------------------------------------ -/

lemma mem_collapseGo {sep : Char} :
    ∀ (b : Bool) (l : List Char) (c : Char),
      c ∈ collapseGo sep b l → c = sep ∨ isJsWs c = false := by
  intro b l
  induction l generalizing b with
  | nil => intro c h; simp [collapseGo] at h
  | cons a rest ih =>
    intro c h
    simp only [collapseGo] at h
    by_cases ha : isJsWs a = true
    · rw [if_pos ha] at h
      cases b with
      | true => exact ih true c h
      | false =>
        rcases List.mem_cons.mp h with h | h
        · exact Or.inl h
        · exact ih true c h
    · rw [if_neg ha] at h
      rcases List.mem_cons.mp h with h | h
      · subst h; exact Or.inr (by simpa using ha)
      · exact ih false c h

lemma assocLookup_filter_self {β : Type} (k : String) :
    ∀ l : List (String × β),
      assocLookup k (l.filter (fun e => decide (e.1 ≠ k))) = none := by
  intro l
  induction l with
  | nil => rfl
  | cons e rest ih =>
    by_cases h : e.1 = k
    · simpa [List.filter_cons, h] using ih
    · have h' : ¬ k = e.1 := fun hh => h hh.symm
      simp only [List.filter_cons]
      rw [if_pos (by simpa using h)]
      simpa [assocLookup, h'] using ih

lemma parseJobList_filterMap :
    ∀ items : List (Option RawItem),
      parseJobList (some items) = (items.filterMap id).filterMap parseJobItem := by
  intro items
  induction items with
  | nil => rfl
  | cons hd tl ih =>
    cases hd with
    | none => simpa [parseJobList] using ih
    | some it =>
      simp only [parseJobList, List.map_cons, List.filterMap_cons, id_eq,
        Option.some_bind] at ih ⊢
      cases h : parseJobItem it <;> simp [h, ih]

/- ------------------------------------------------------------------ -/
/- Claims                                                              -/
/- ------------------------------------------------------------------ -/

/-- Claim C9: constructing a Query normalizes keyword and location by
    trimming and collapsing each internal whitespace run to a single
    plus sign; "software  engineer" becomes "software+engineer",
    " London " becomes "London", and the normalized strings contain no
    whitespace character at all (hence no raw whitespace run). -/
theorem constructor_normalizes_whitespace :
    (∀ (o : QueryObject) s, o.keyword = some s →
        (Query.ofObject o).keyword = normalizeKW s) ∧
    (∀ (o : QueryObject) s, o.location = some s →
        (Query.ofObject o).location = normalizeKW s) ∧
    normalizeKW "software  engineer" = "software+engineer" ∧
    normalizeKW " London " = "London" ∧
    (∀ s c, c ∈ (normalizeKW s).data → isJsWs c = false) := by
  refine ⟨?_, ?_, by decide, by decide, ?_⟩
  · intro o s h; simp [Query.ofObject, h]
  · intro o s h; simp [Query.ofObject, h]
  · intro s c hc
    have hm := mem_collapseGo false (jsTrim s).data c
      (by simpa [normalizeKW, jsCollapseWs] using hc)
    rcases hm with h | h
    · subst h; decide
    · exact h

/-- Witness for C9 at a concrete constructor input. -/
theorem constructor_normalizes_whitespace_witness :
    (Query.ofObject { keyword := some "software  engineer" }).keyword =
      normalizeKW "software  engineer" :=
  constructor_normalizes_whitespace.1 { keyword := some "software  engineer" } _ rfl

/-- Claim C5: a get immediately after set (while now minus the stored
    timestamp is at most TTL) returns exactly the stored sequence; once
    more than TTL has elapsed the get returns null and deletes the
    entry; and the clear sweep keeps exactly the entries whose age is at
    most TTL. -/
theorem cache_ttl_spec :
    (∀ (c : JobCache) k v t now, now - t ≤ TTL →
        ((JobCache.set c k v t).get k now).1 = some v) ∧
    (∀ (c : JobCache) k v t now, TTL < now - t →
        ((JobCache.set c k v t).get k now).1 = none ∧
        assocLookup k ((JobCache.set c k v t).get k now).2.entries = none) ∧
    (∀ (c : JobCache) now e, e ∈ (c.clear now).entries ↔
        e ∈ c.entries ∧ now - e.2.timestamp ≤ TTL) := by
  refine ⟨?_, ?_, ?_⟩
  · intro c k v t now h
    have key : assocLookup k (JobCache.set c k v t).entries = some ⟨v, t⟩ := by
      simp [JobCache.set, assocLookup]
    simp only [JobCache.get, key]
    rw [if_neg (show ¬ now - t > TTL by omega)]
  · intro c k v t now h
    have key : assocLookup k (JobCache.set c k v t).entries = some ⟨v, t⟩ := by
      simp [JobCache.set, assocLookup]
    simp only [JobCache.get, key]
    rw [if_pos (show now - t > TTL by omega)]
    exact ⟨rfl, assocLookup_filter_self k _⟩
  · intro c now e
    obtain ⟨l⟩ := c
    show e ∈ clearSweep now l ↔ e ∈ l ∧ now - e.2.timestamp ≤ TTL
    induction l with
    | nil => simp [clearSweep]
    | cons hd tl ih =>
      simp only [clearSweep]
      split_ifs with h
      · rw [ih]
        simp only [List.mem_cons]
        constructor
        · rintro ⟨h1, h2⟩; exact ⟨Or.inr h1, h2⟩
        · rintro ⟨h1 | h1, h2⟩
          · subst h1; omega
          · exact ⟨h1, h2⟩
      · simp only [List.mem_cons, ih]
        constructor
        · rintro (h1 | ⟨h1, h2⟩)
          · subst h1; exact ⟨Or.inl rfl, by omega⟩
          · exact ⟨Or.inr h1, h2⟩
        · rintro ⟨h1 | h1, h2⟩
          · subst h1; exact Or.inl rfl
          · exact Or.inr ⟨h1, h2⟩

/-- Witness for C5: a concrete set followed by a get inside the TTL
    window returns the stored data. -/
theorem cache_ttl_spec_witness :
    ((JobCache.set ⟨[]⟩ "k" [] 0).get "k" 5).1 = some [] :=
  cache_ttl_spec.1 ⟨[]⟩ "k" [] 0 5 (by decide)

/-- Claim C6: parseJobList is total: an unparseable page yields the
    empty list, an item whose extraction throws is dropped, the
    surviving items are parsed in page order, items whose trimmed
    position or trimmed company is empty are dropped, and every
    returned record carries the defaults (salary "Not specified" when
    the collapsed salary text is empty, empty strings for missing url
    and logo attributes, trimmed ago text). -/
theorem parseJobList_total_spec :
    parseJobList none = [] ∧
    (∀ items, parseJobList (some items) =
        (items.filterMap id).filterMap parseJobItem) ∧
    (∀ it, jsTrim it.positionText = "" ∨ jsTrim it.companyText = "" →
        parseJobItem it = none) ∧
    (∀ it r, parseJobItem it = some r →
        r.position = jsTrim it.positionText ∧
        r.company = jsTrim it.companyText ∧
        r.location = jsTrim it.locationText ∧
        r.date = it.dateAttr ∧
        (jsCollapseWs ' ' (jsTrim it.salaryText) = "" →
            r.salary = "Not specified") ∧
        (jsCollapseWs ' ' (jsTrim it.salaryText) ≠ "" →
            r.salary = jsCollapseWs ' ' (jsTrim it.salaryText)) ∧
        r.jobUrl = it.jobUrlAttr.getD "" ∧
        r.companyLogo = it.companyLogoAttr.getD "" ∧
        r.agoTime = jsTrim it.agoTimeText) := by
  refine ⟨rfl, parseJobList_filterMap, ?_, ?_⟩
  · intro it h
    simp only [parseJobItem]
    rw [if_pos h]
  · intro it r h
    by_cases hcond : jsTrim it.positionText = "" ∨ jsTrim it.companyText = ""
    · simp only [parseJobItem, if_pos hcond] at h
      exact absurd h (by simp)
    · simp only [parseJobItem, if_neg hcond] at h
      injection h with h
      subst h
      refine ⟨rfl, rfl, rfl, rfl, ?_, ?_, rfl, rfl, rfl⟩
      · intro hs; simp [hs]
      · intro hs; simp [hs]

/-- Witness for C6: a concrete item with an empty position is dropped. -/
theorem parseJobList_total_witness :
    parseJobItem ⟨"", "Acme", "", none, "", none, none, ""⟩ = none :=
  parseJobList_total_spec.2.2.1 _ (Or.inl (by decide))

/-- Claim C7 (amended): a candidate item is discarded exactly when its
    trimmed position is empty OR its trimmed company is empty; both
    fields must be non-empty for a record to be returned. -/
theorem parseJobItem_validity_rule :
    ∀ it, parseJobItem it = none ↔
      (jsTrim it.positionText = "" ∨ jsTrim it.companyText = "") := by
  intro it
  simp only [parseJobItem]
  split_ifs with h
  · simp [h]
  · simp [h]

/-- Counterexample for C7 as stated: an item with a non-empty position
    but an empty company yields no record (the claim says one of the
    two suffices). -/
theorem parseJobItem_one_field_insufficient :
    jsTrim (RawItem.mk "Engineer" "" "London" none "" none none "").positionText ≠ "" ∧
    parseJobList (some [some (RawItem.mk "Engineer" "" "London" none "" none none "")]) = [] :=
  ⟨by decide, by decide⟩

/-- One loop iteration on an empty page: the loop ends successfully. -/
lemma runLoop_step_empty (L : Int) (F : Nat → Nat → Option (List JobData))
    (fuel k : Nat) (s : LoopState) (h : F k s.start = some []) :
    runLoop L F (fuel + 1) k s =
      some ([.fetch s.start (some [])], s.allJobs, .emptyPage) := by
  simp [runLoop, h]

/-- One loop iteration reaching the limit: slice and stop. -/
lemma runLoop_step_limit (L : Int) (F : Nat → Nat → Option (List JobData))
    (fuel k : Nat) (s : LoopState) (jobs : List JobData)
    (h : F k s.start = some jobs) (hne : jobs ≠ [])
    (hlim : L ≠ 0 ∧ L ≤ (((s.allJobs ++ jobs).length : Int))) :
    runLoop L F (fuel + 1) k s =
      some ([.fetch s.start (some jobs)], jsSlice0 (s.allJobs ++ jobs) L,
        .limitReached) := by
  simp only [runLoop, h]
  rw [if_neg hne, if_pos hlim]

/-- One successful, non-terminating loop iteration: accumulate, reset
    the error counter to zero, advance the offset by the batch size,
    pace, and continue. -/
lemma runLoop_step_next (L : Int) (F : Nat → Nat → Option (List JobData))
    (fuel k : Nat) (s : LoopState) (jobs : List JobData)
    (h : F k s.start = some jobs) (hne : jobs ≠ [])
    (hlim : ¬ (L ≠ 0 ∧ L ≤ (((s.allJobs ++ jobs).length : Int)))) :
    runLoop L F (fuel + 1) k s =
      (runLoop L F fuel (k + 1) ⟨s.allJobs ++ jobs, s.start + BATCH_SIZE, 0⟩).map
        (fun x => (.fetch s.start (some jobs) :: .pace :: x.1, x.2)) := by
  simp only [runLoop, h]
  rw [if_neg hne, if_neg hlim]

/-- One failed iteration at the threshold: stop with the accumulation. -/
lemma runLoop_step_failStop (L : Int) (F : Nat → Nat → Option (List JobData))
    (fuel k : Nat) (s : LoopState) (h : F k s.start = none)
    (hthr : s.consecutiveErrors + 1 ≥ MAX_CONSECUTIVE_ERRORS) :
    runLoop L F (fuel + 1) k s =
      some ([.fetch s.start none], s.allJobs, .errorThreshold) := by
  simp only [runLoop, h]
  rw [if_pos hthr]

/-- One failed iteration below the threshold: increment the counter,
    back off exponentially, and retry the same offset. -/
lemma runLoop_step_failRetry (L : Int) (F : Nat → Nat → Option (List JobData))
    (fuel k : Nat) (s : LoopState) (h : F k s.start = none)
    (hthr : ¬ s.consecutiveErrors + 1 ≥ MAX_CONSECUTIVE_ERRORS) :
    runLoop L F (fuel + 1) k s =
      (runLoop L F fuel (k + 1) ⟨s.allJobs, s.start, s.consecutiveErrors + 1⟩).map
        (fun x => (.fetch s.start none ::
          .backoff (2 ^ (s.consecutiveErrors + 1) * 1000) :: x.1, x.2)) := by
  simp only [runLoop, h]
  rw [if_neg hthr]

/-- Characterization of every terminating run of the pagination loop:
    unless the stop reason is the limit break, the result is the initial
    accumulation followed by every successfully fetched page in order;
    at the limit break the same accumulation has reached the limit and
    is sliced to it. -/
lemma runLoop_result_spec (L : Int) (F : Nat → Nat → Option (List JobData)) :
    ∀ (fuel k : Nat) (s : LoopState) (tr : List LoopAction) (res : List JobData)
      (r : StopReason), runLoop L F fuel k s = some (tr, res, r) →
      (r = .limitReached →
          L ≠ 0 ∧ L ≤ ((s.allJobs ++ pagesJoin tr).length : Int) ∧
          res = jsSlice0 (s.allJobs ++ pagesJoin tr) L) ∧
      (r ≠ .limitReached → res = s.allJobs ++ pagesJoin tr) := by
  intro fuel
  induction fuel with
  | zero => intro k s tr res r h; simp [runLoop] at h
  | succ n ih =>
    intro k s tr res r h
    cases hF : F k s.start with
    | some jobs =>
      by_cases hemp : jobs = []
      · subst hemp
        rw [runLoop_step_empty L F n k s hF] at h
        simp only [Option.some.injEq, Prod.mk.injEq] at h
        obtain ⟨rfl, rfl, rfl⟩ := h
        constructor
        · intro hr; exact absurd hr (by simp)
        · intro _; simp [pagesJoin, fetchedPages, joinAll]
      · by_cases hlim : L ≠ 0 ∧ L ≤ (((s.allJobs ++ jobs).length : Int))
        · rw [runLoop_step_limit L F n k s jobs hF hemp hlim] at h
          simp only [Option.some.injEq, Prod.mk.injEq] at h
          obtain ⟨rfl, rfl, rfl⟩ := h
          constructor
          · intro _
            have hp : pagesJoin [LoopAction.fetch s.start (some jobs)] = jobs := by
              simp [pagesJoin, fetchedPages, joinAll]
            rw [hp]
            exact ⟨hlim.1, hlim.2, rfl⟩
          · intro hr; exact absurd rfl hr
        · rw [runLoop_step_next L F n k s jobs hF hemp hlim] at h
          cases hrec : runLoop L F n (k + 1)
              ⟨s.allJobs ++ jobs, s.start + BATCH_SIZE, 0⟩ with
          | none => rw [hrec] at h; simp at h
          | some x =>
            rw [hrec] at h
            obtain ⟨tr', res', r'⟩ := x
            simp only [Option.map_some', Option.some.injEq, Prod.mk.injEq] at h
            obtain ⟨rfl, rfl, rfl⟩ := h
            have hx := ih (k + 1) ⟨s.allJobs ++ jobs, s.start + BATCH_SIZE, 0⟩
              tr' res' r' hrec
            have hpages : s.allJobs ++ pagesJoin
                (.fetch s.start (some jobs) :: .pace :: tr') =
                (s.allJobs ++ jobs) ++ pagesJoin tr' := by
              simp [pagesJoin, fetchedPages, joinAll]
            constructor
            · intro hr
              obtain ⟨h1, h2, h3⟩ := hx.1 hr
              exact ⟨h1, by rw [hpages]; exact h2, by rw [hpages]; exact h3⟩
            · intro hr
              rw [hpages]
              exact hx.2 hr
    | none =>
      by_cases hthr : s.consecutiveErrors + 1 ≥ MAX_CONSECUTIVE_ERRORS
      · rw [runLoop_step_failStop L F n k s hF hthr] at h
        simp only [Option.some.injEq, Prod.mk.injEq] at h
        obtain ⟨rfl, rfl, rfl⟩ := h
        constructor
        · intro hr; exact absurd hr (by simp)
        · intro _; simp [pagesJoin, fetchedPages, joinAll]
      · rw [runLoop_step_failRetry L F n k s hF hthr] at h
        cases hrec : runLoop L F n (k + 1)
            ⟨s.allJobs, s.start, s.consecutiveErrors + 1⟩ with
        | none => rw [hrec] at h; simp at h
        | some x =>
          rw [hrec] at h
          obtain ⟨tr', res', r'⟩ := x
          simp only [Option.map_some', Option.some.injEq, Prod.mk.injEq] at h
          obtain ⟨rfl, rfl, rfl⟩ := h
          have hx := ih (k + 1) ⟨s.allJobs, s.start, s.consecutiveErrors + 1⟩
            tr' res' r' hrec
          have hpages : s.allJobs ++ pagesJoin
              (.fetch s.start none ::
                .backoff (2 ^ (s.consecutiveErrors + 1) * 1000) :: tr') =
              s.allJobs ++ pagesJoin tr' := by
            simp [pagesJoin, fetchedPages, joinAll]
          constructor
          · intro hr
            obtain ⟨h1, h2, h3⟩ := hx.1 hr
            exact ⟨h1, by rw [hpages]; exact h2, by rw [hpages]; exact h3⟩
          · intro hr
            rw [hpages]
            exact hx.2 hr

/-- With a zero (falsy) limit the limit break is unreachable. -/
lemma runLoop_zero_limit_reason (F : Nat → Nat → Option (List JobData)) :
    ∀ (fuel k : Nat) (s : LoopState) (tr : List LoopAction) (res : List JobData)
      (r : StopReason), runLoop 0 F fuel k s = some (tr, res, r) →
      r ≠ .limitReached := by
  intro fuel
  induction fuel with
  | zero => intro k s tr res r h; simp [runLoop] at h
  | succ n ih =>
    intro k s tr res r h
    cases hF : F k s.start with
    | some jobs =>
      by_cases hemp : jobs = []
      · subst hemp
        rw [runLoop_step_empty 0 F n k s hF] at h
        simp only [Option.some.injEq, Prod.mk.injEq] at h
        obtain ⟨rfl, rfl, rfl⟩ := h
        simp
      · rw [runLoop_step_next 0 F n k s jobs hF hemp (by simp)] at h
        cases hrec : runLoop 0 F n (k + 1)
            ⟨s.allJobs ++ jobs, s.start + BATCH_SIZE, 0⟩ with
        | none => rw [hrec] at h; simp at h
        | some x =>
          rw [hrec] at h
          obtain ⟨tr', res', r'⟩ := x
          simp only [Option.map_some', Option.some.injEq, Prod.mk.injEq] at h
          obtain ⟨rfl, rfl, rfl⟩ := h
          exact ih (k + 1) _ tr' res' r' hrec
    | none =>
      by_cases hthr : s.consecutiveErrors + 1 ≥ MAX_CONSECUTIVE_ERRORS
      · rw [runLoop_step_failStop 0 F n k s hF hthr] at h
        simp only [Option.some.injEq, Prod.mk.injEq] at h
        obtain ⟨rfl, rfl, rfl⟩ := h
        simp
      · rw [runLoop_step_failRetry 0 F n k s hF hthr] at h
        cases hrec : runLoop 0 F n (k + 1)
            ⟨s.allJobs, s.start, s.consecutiveErrors + 1⟩ with
        | none => rw [hrec] at h; simp at h
        | some x =>
          rw [hrec] at h
          obtain ⟨tr', res', r'⟩ := x
          simp only [Option.map_some', Option.some.injEq, Prod.mk.injEq] at h
          obtain ⟨rfl, rfl, rfl⟩ := h
          exact ih (k + 1) _ tr' res' r' hrec

/-- With a positive limit, a run entering with fewer accumulated records
    than the limit that stops for a reason other than the limit break
    still holds fewer records than the limit. -/
lemma runLoop_under_limit (L : Int) (F : Nat → Nat → Option (List JobData)) :
    ∀ (fuel k : Nat) (s : LoopState) (tr : List LoopAction) (res : List JobData)
      (r : StopReason), 0 < L → ((s.allJobs.length : Int) < L) →
      runLoop L F fuel k s = some (tr, res, r) → r ≠ .limitReached →
      ((res.length : Int) < L) := by
  intro fuel
  induction fuel with
  | zero => intro k s tr res r _ _ h; simp [runLoop] at h
  | succ n ih =>
    intro k s tr res r hL hlen h hr
    cases hF : F k s.start with
    | some jobs =>
      by_cases hemp : jobs = []
      · subst hemp
        rw [runLoop_step_empty L F n k s hF] at h
        simp only [Option.some.injEq, Prod.mk.injEq] at h
        obtain ⟨rfl, rfl, rfl⟩ := h
        exact hlen
      · by_cases hlim : L ≠ 0 ∧ L ≤ (((s.allJobs ++ jobs).length : Int))
        · rw [runLoop_step_limit L F n k s jobs hF hemp hlim] at h
          simp only [Option.some.injEq, Prod.mk.injEq] at h
          obtain ⟨rfl, rfl, rfl⟩ := h
          exact absurd rfl hr
        · rw [runLoop_step_next L F n k s jobs hF hemp hlim] at h
          cases hrec : runLoop L F n (k + 1)
              ⟨s.allJobs ++ jobs, s.start + BATCH_SIZE, 0⟩ with
          | none => rw [hrec] at h; simp at h
          | some x =>
            rw [hrec] at h
            obtain ⟨tr', res', r'⟩ := x
            simp only [Option.map_some', Option.some.injEq, Prod.mk.injEq] at h
            obtain ⟨rfl, rfl, rfl⟩ := h
            have hnew : (((s.allJobs ++ jobs).length : Int)) < L := by
              push_neg at hlim
              have := hlim (by omega)
              omega
            exact ih (k + 1) ⟨s.allJobs ++ jobs, s.start + BATCH_SIZE, 0⟩ tr' res' r'
              hL hnew hrec hr
    | none =>
      by_cases hthr : s.consecutiveErrors + 1 ≥ MAX_CONSECUTIVE_ERRORS
      · rw [runLoop_step_failStop L F n k s hF hthr] at h
        simp only [Option.some.injEq, Prod.mk.injEq] at h
        obtain ⟨rfl, rfl, rfl⟩ := h
        exact hlen
      · rw [runLoop_step_failRetry L F n k s hF hthr] at h
        cases hrec : runLoop L F n (k + 1)
            ⟨s.allJobs, s.start, s.consecutiveErrors + 1⟩ with
        | none => rw [hrec] at h; simp at h
        | some x =>
          rw [hrec] at h
          obtain ⟨tr', res', r'⟩ := x
          simp only [Option.map_some', Option.some.injEq, Prod.mk.injEq] at h
          obtain ⟨rfl, rfl, rfl⟩ := h
          exact ih (k + 1) ⟨s.allJobs, s.start, s.consecutiveErrors + 1⟩ tr' res' r'
            hL hlen hrec hr

/-- Claim C1: with a fetch oracle that always fails and a cache miss,
    getJobs performs exactly three fetches, all at offset 0, with
    backoff delays of 2^1 and 2^2 seconds between them, and returns the
    empty sequence as a normal (non-error) result. A failed fetch below
    the threshold increments the counter, backs off 2^errorCount
    seconds, and retries the same offset; a successful non-empty,
    non-terminating fetch resets the counter to zero and advances the
    offset by the batch size. -/
theorem all_failures_returns_empty :
    (∀ q c now F fuel, (∀ k s, F k s = none) → 3 ≤ fuel →
        (JobCache.get c (q.url 0) now).1 = none →
        getJobs q c now F fuel =
          some ([], (JobCache.get c (q.url 0) now).2,
            [.fetch 0 none, .backoff 2000, .fetch 0 none, .backoff 4000,
             .fetch 0 none])) ∧
    (∀ L F fuel k (s : LoopState), F k s.start = none →
        s.consecutiveErrors + 1 < MAX_CONSECUTIVE_ERRORS →
        runLoop L F (fuel + 1) k s =
          (runLoop L F fuel (k + 1) ⟨s.allJobs, s.start, s.consecutiveErrors + 1⟩).map
            (fun x => (.fetch s.start none ::
              .backoff (2 ^ (s.consecutiveErrors + 1) * 1000) :: x.1, x.2))) ∧
    (∀ L F fuel k (s : LoopState) jobs, F k s.start = some jobs → jobs ≠ [] →
        ¬ (L ≠ 0 ∧ L ≤ (((s.allJobs ++ jobs).length : Int))) →
        runLoop L F (fuel + 1) k s =
          (runLoop L F fuel (k + 1) ⟨s.allJobs ++ jobs, s.start + BATCH_SIZE, 0⟩).map
            (fun x => (.fetch s.start (some jobs) :: .pace :: x.1, x.2))) := by
  refine ⟨?_, ?_, ?_⟩
  · intro q c now F fuel hF hfuel hmiss
    obtain ⟨n, rfl⟩ : ∃ n, fuel = n + 3 := ⟨fuel - 3, by omega⟩
    have hrun : runLoop q.limit F (n + 3) 0 ⟨[], 0, 0⟩ =
        some ([.fetch 0 none, .backoff 2000, .fetch 0 none, .backoff 4000,
          .fetch 0 none], [], .errorThreshold) := by
      simp [runLoop, hF, MAX_CONSECUTIVE_ERRORS]
    simp only [getJobs, hmiss, hrun]
    simp
  · intro L F fuel k s hFk hthr
    simp only [runLoop, hFk]
    rw [if_neg (by omega)]
  · intro L F fuel k s jobs hFk hjobs hlim
    simp only [runLoop, hFk]
    rw [if_neg hjobs, if_neg hlim]

/-- Witness for C1 at a concrete query, an empty cache and the
    always-failing oracle. -/
theorem all_failures_returns_empty_witness :
    getJobs (Query.ofObject {}) (JobCache.mk []) 0 (fun _ _ => none) 3 =
      some ([], (JobCache.get (JobCache.mk []) ((Query.ofObject {}).url 0) 0).2,
        [.fetch 0 none, .backoff 2000, .fetch 0 none, .backoff 4000,
         .fetch 0 none]) :=
  all_failures_returns_empty.1 (Query.ofObject {}) (JobCache.mk []) 0
    (fun _ _ => none) 3 (fun _ _ => rfl) (by omega) rfl

/-- Claim C2: with a positive limit L, as soon as the accumulated
    records reach or exceed L the loop truncates the accumulation to its
    first L records (preserving accumulation order) and stops; over a
    whole run from the initial state, the result is the truncated
    accumulation of exactly length L at the limit break, while any other
    stop returns the whole accumulation, of length strictly below L
    (so the limit break is the only truncating stop). -/
theorem limit_truncation_spec :
    (∀ (L : Int) F fuel k (s : LoopState) jobs, 0 < L →
        F k s.start = some jobs → jobs ≠ [] →
        L ≤ (((s.allJobs ++ jobs).length : Int)) →
        runLoop L F (fuel + 1) k s =
          some ([.fetch s.start (some jobs)],
            (s.allJobs ++ jobs).take L.toNat, .limitReached) ∧
        ((((s.allJobs ++ jobs).take L.toNat).length : Int)) = L) ∧
    (∀ (L : Int) F fuel tr res r, 0 < L →
        runLoop L F fuel 0 ⟨[], 0, 0⟩ = some (tr, res, r) →
        (r = .limitReached →
            res = (pagesJoin tr).take L.toNat ∧ ((res.length : Int)) = L) ∧
        (r ≠ .limitReached →
            res = pagesJoin tr ∧ ((res.length : Int)) < L)) := by
  constructor
  · intro L F fuel k s jobs hL hFk hjobs hlen
    constructor
    · simp only [runLoop, hFk]
      rw [if_neg hjobs, if_pos ⟨by omega, hlen⟩]
      rw [jsSlice0, if_neg (by omega)]
    · have h1 : L.toNat ≤ (s.allJobs ++ jobs).length := by omega
      rw [List.length_take]
      omega
  · intro L F fuel tr res r hL h
    have hspec := runLoop_result_spec L F fuel 0 ⟨[], 0, 0⟩ tr res r h
    constructor
    · intro hr
      obtain ⟨h1, h2, h3⟩ := hspec.1 hr
      simp only [List.nil_append] at h2 h3
      rw [jsSlice0, if_neg (by omega)] at h3
      refine ⟨h3, ?_⟩
      rw [h3, List.length_take]
      omega
    · intro hr
      have h1 := hspec.2 hr
      simp only [List.nil_append] at h1
      refine ⟨h1, ?_⟩
      have := runLoop_under_limit L F fuel 0 ⟨[], 0, 0⟩ tr res r hL (by simp [hL]) h hr
      exact this

/-- Witness for C2: a single page of one record against limit one stops
    the loop with exactly one record. -/
theorem limit_truncation_witness :
    (runLoop 1 (fun _ _ => some [(⟨"p", "c", "l", none, "s", "u", "g", "a"⟩ : JobData)]) (0 + 1) 0
        ⟨[], 0, 0⟩ =
      some ([.fetch 0 (some [(⟨"p", "c", "l", none, "s", "u", "g", "a"⟩ : JobData)])],
        (([] : List JobData) ++ [(⟨"p", "c", "l", none, "s", "u", "g", "a"⟩ : JobData)]).take
          (1 : Int).toNat, .limitReached) ∧
    ((((([] : List JobData) ++ [(⟨"p", "c", "l", none, "s", "u", "g", "a"⟩ : JobData)]).take
        (1 : Int).toNat).length : Int)) = 1) :=
  limit_truncation_spec.1 1 (fun _ _ => some [(⟨"p", "c", "l", none, "s", "u", "g", "a"⟩ : JobData)])
    0 0 ⟨[], 0, 0⟩ [(⟨"p", "c", "l", none, "s", "u", "g", "a"⟩ : JobData)]
    (by decide) rfl (by decide) (by decide)

/-- Claim C10: a limit that is absent, NaN or zero is stored as zero by
    the constructor, and a zero limit applies no cap at all: the limit
    break never fires and every terminating run returns the full
    accumulation (stopping only on an empty page or the error
    threshold). -/
theorem zero_limit_no_cap :
    (∀ o : QueryObject,
        o.limit = none ∨ o.limit = some .nan ∨ o.limit = some (.num 0) →
        (Query.ofObject o).limit = 0) ∧
    (∀ F fuel k (s : LoopState) tr res r,
        runLoop 0 F fuel k s = some (tr, res, r) →
        r ≠ .limitReached ∧ res = s.allJobs ++ pagesJoin tr) := by
  constructor
  · rintro o (h | h | h) <;> simp [Query.ofObject, h, jsNumOrZero]
  · intro F fuel k s tr res r h
    have hr := runLoop_zero_limit_reason F fuel k s tr res r h
    exact ⟨hr, (runLoop_result_spec 0 F fuel k s tr res r h).2 hr⟩

/-- Witness for C10: a concrete zero-limit run that stops on an empty
    page returns the full (empty) accumulation. -/
theorem zero_limit_no_cap_witness :
    StopReason.emptyPage ≠ StopReason.limitReached ∧
    ([] : List JobData) = [] ++ pagesJoin [.fetch 0 (some [])] :=
  zero_limit_no_cap.2 (fun _ _ => some []) 1 0 ⟨[], 0, 0⟩
    [.fetch 0 (some [])] [] .emptyPage (by decide)

/-- Claim C4: on a cache hit with a non-expired entry, getJobs returns
    the cached sequence immediately; the action trace is empty, so the
    fetch oracle is never invoked and no outbound request happens. -/
theorem cache_hit_no_fetch :
    ∀ q c now F fuel v t, assocLookup (q.url 0) c.entries = some ⟨v, t⟩ →
      now - t ≤ TTL → getJobs q c now F fuel = some (v, c, []) := by
  intro q c now F fuel v t hk httl
  have hget : JobCache.get c (q.url 0) now = (some v, c) := by
    simp only [JobCache.get, hk]
    rw [if_neg (show ¬ now - t > TTL by omega)]
  simp only [getJobs, hget]

/-- Witness for C4: a concrete cache holding the key of a concrete query
    is returned without any action. -/
theorem cache_hit_no_fetch_witness :
    getJobs (Query.ofObject {}) (JobCache.mk [((Query.ofObject {}).url 0, ⟨[], 7⟩)]) 9
        (fun _ _ => none) 0 =
      some ([], JobCache.mk [((Query.ofObject {}).url 0, ⟨[], 7⟩)], []) :=
  cache_hit_no_fetch (Query.ofObject {})
    (JobCache.mk [((Query.ofObject {}).url 0, ⟨[], 7⟩)]) 9
    (fun _ _ => none) 0 [] 7 (by simp [assocLookup]) (by decide)

lemma mem_map_fst_append (A B : List (String × String)) (k : String) :
    k ∈ (A ++ B).map Prod.fst ↔ k ∈ A.map Prod.fst ∨ k ∈ B.map Prod.fst := by
  simp [List.mem_append]

lemma mem_map_fst_optParam (c : Prop) [Decidable c] (k k' v : String) :
    k ∈ (optParam c k' v).map Prod.fst ↔ (k = k' ∧ c) := by
  by_cases h : c <;> simp [optParam, h]

lemma mem_map_fst_start (v k : String) :
    k ∈ ([("start", v)] : List (String × String)).map Prod.fst ↔ k = "start" := by
  simp

lemma mem_map_fst_sortParam (q : Query) (k : String) :
    k ∈ ((match q.sortToken with
          | some t => [("sortBy", t)]
          | none => []) : List (String × String)).map Prod.fst ↔
      (k = "sortBy" ∧ q.sortToken ≠ none) := by
  cases hs : q.sortToken <;> simp [hs]

/-- Which parameter names occur in the url parameter list, by guard. -/
lemma mem_keys_rawParams (q : Query) (start : Int) (k : String) :
    k ∈ (rawParams q start).map Prod.fst ↔
      (((((((((k = "keywords" ∧ q.keyword ≠ "") ∨
              (k = "location" ∧ q.location ≠ "")) ∨
             (k = "f_TPR" ∧ q.getDateSincePosted ≠ "")) ∨
            (k = "f_SB2" ∧ q.getSalary ≠ "")) ∨
           (k = "f_E" ∧ q.getExperienceLevel ≠ "")) ∨
          (k = "f_WT" ∧ q.getRemoteFilter ≠ "")) ∨
         (k = "f_JT" ∧ q.getJobType ≠ "")) ∨ k = "start") ∨
       (k = "sortBy" ∧ q.sortToken ≠ none)) := by
  simp only [rawParams, mem_map_fst_append, mem_map_fst_optParam,
    mem_map_fst_start, mem_map_fst_sortParam]

/-- Claim C8: a date-posted, salary, experience, remote, job-type or
    sort value that is absent or not recognized by its fixed lookup
    table contributes no parameter to the url parameter list (rather
    than a default), and the date, experience, job-type and remote
    lookups are keyed on the lowercased value, so they are
    case-insensitive. -/
theorem unrecognized_filters_omitted :
    (∀ q start, assocLookup (jsToLower q.dateSincePosted) dateRange = none →
        "f_TPR" ∉ (rawParams q start).map Prod.fst) ∧
    (∀ q start, assocLookup (jsToLower q.experienceLevel) experienceRange = none →
        "f_E" ∉ (rawParams q start).map Prod.fst) ∧
    (∀ q start, assocLookup (jsToLower q.jobType) jobTypeRange = none →
        "f_JT" ∉ (rawParams q start).map Prod.fst) ∧
    (∀ q start, assocLookup (jsToLower q.remoteFilter) remoteFilterRange = none →
        "f_WT" ∉ (rawParams q start).map Prod.fst) ∧
    (∀ q start, assocLookup q.salary salaryRange = none →
        "f_SB2" ∉ (rawParams q start).map Prod.fst) ∧
    (∀ q start, q.sortBy ≠ "recent" → q.sortBy ≠ "relevant" →
        "sortBy" ∉ (rawParams q start).map Prod.fst) ∧
    (∀ q₁ q₂ : Query, jsToLower q₁.dateSincePosted = jsToLower q₂.dateSincePosted →
        q₁.getDateSincePosted = q₂.getDateSincePosted) ∧
    (∀ q₁ q₂ : Query, jsToLower q₁.experienceLevel = jsToLower q₂.experienceLevel →
        q₁.getExperienceLevel = q₂.getExperienceLevel) ∧
    (∀ q₁ q₂ : Query, jsToLower q₁.jobType = jsToLower q₂.jobType →
        q₁.getJobType = q₂.getJobType) ∧
    (∀ q₁ q₂ : Query, jsToLower q₁.remoteFilter = jsToLower q₂.remoteFilter →
        q₁.getRemoteFilter = q₂.getRemoteFilter) := by
  refine ⟨?_, ?_, ?_, ?_, ?_, ?_, ?_, ?_, ?_, ?_⟩
  · intro q start hnone
    rw [mem_keys_rawParams]
    rintro ((((((((⟨h, -⟩ | ⟨h, -⟩) | ⟨-, h⟩) | ⟨h, -⟩) | ⟨h, -⟩) | ⟨h, -⟩) |
      ⟨h, -⟩) | h) | ⟨h, -⟩) <;>
      first
        | exact absurd h (by decide)
        | exact h (by simp [Query.getDateSincePosted, hnone])
  · intro q start hnone
    rw [mem_keys_rawParams]
    rintro ((((((((⟨h, -⟩ | ⟨h, -⟩) | ⟨h, -⟩) | ⟨h, -⟩) | ⟨-, h⟩) | ⟨h, -⟩) |
      ⟨h, -⟩) | h) | ⟨h, -⟩) <;>
      first
        | exact absurd h (by decide)
        | exact h (by simp [Query.getExperienceLevel, hnone])
  · intro q start hnone
    rw [mem_keys_rawParams]
    rintro ((((((((⟨h, -⟩ | ⟨h, -⟩) | ⟨h, -⟩) | ⟨h, -⟩) | ⟨h, -⟩) | ⟨h, -⟩) |
      ⟨-, h⟩) | h) | ⟨h, -⟩) <;>
      first
        | exact absurd h (by decide)
        | exact h (by simp [Query.getJobType, hnone])
  · intro q start hnone
    rw [mem_keys_rawParams]
    rintro ((((((((⟨h, -⟩ | ⟨h, -⟩) | ⟨h, -⟩) | ⟨h, -⟩) | ⟨h, -⟩) | ⟨-, h⟩) |
      ⟨h, -⟩) | h) | ⟨h, -⟩) <;>
      first
        | exact absurd h (by decide)
        | exact h (by simp [Query.getRemoteFilter, hnone])
  · intro q start hnone
    rw [mem_keys_rawParams]
    rintro ((((((((⟨h, -⟩ | ⟨h, -⟩) | ⟨h, -⟩) | ⟨-, h⟩) | ⟨h, -⟩) | ⟨h, -⟩) |
      ⟨h, -⟩) | h) | ⟨h, -⟩) <;>
      first
        | exact absurd h (by decide)
        | exact h (by simp [Query.getSalary, hnone])
  · intro q start h1 h2
    rw [mem_keys_rawParams]
    rintro ((((((((⟨h, -⟩ | ⟨h, -⟩) | ⟨h, -⟩) | ⟨h, -⟩) | ⟨h, -⟩) | ⟨h, -⟩) |
      ⟨h, -⟩) | h) | ⟨-, h⟩) <;>
      first
        | exact absurd h (by decide)
        | exact h (by simp [Query.sortToken, h1, h2])
  · intro q₁ q₂ h; simp [Query.getDateSincePosted, h]
  · intro q₁ q₂ h; simp [Query.getExperienceLevel, h]
  · intro q₁ q₂ h; simp [Query.getJobType, h]
  · intro q₁ q₂ h; simp [Query.getRemoteFilter, h]

/-- Witness for C8: an unrecognized date filter value adds no f_TPR
    parameter. -/
theorem unrecognized_filters_omitted_witness :
    "f_TPR" ∉ (rawParams (Query.ofObject { dateSincePosted := some "someday" }) 0).map
      Prod.fst :=
  unrecognized_filters_omitted.1 (Query.ofObject { dateSincePosted := some "someday" })
    0 (by decide)

/- ------------------------------------------------------------------ -/
/- Cache-key analysis: recovering the query from the serialized URL    -/
/- ------------------------------------------------------------------ -/

lemma takeWhile_ne_append (sep : Char) (a b : List Char) (ha : sep ∉ a) :
    (a ++ sep :: b).takeWhile (fun x => x != sep) = a := by
  induction a with
  | nil => simp [List.takeWhile]
  | cons x xs ih =>
    have hx : x ≠ sep := by intro hh; exact ha (by simp [hh])
    have hxs : sep ∉ xs := fun hh => ha (by simp [hh])
    simp only [List.cons_append, List.takeWhile]
    rw [show (x != sep) = true by simpa using hx]
    simp [ih hxs]

lemma dropWhile_ne_append (sep : Char) (a b : List Char) (ha : sep ∉ a) :
    (a ++ sep :: b).dropWhile (fun x => x != sep) = sep :: b := by
  induction a with
  | nil => simp [List.dropWhile]
  | cons x xs ih =>
    have hx : x ≠ sep := by intro hh; exact ha (by simp [hh])
    have hxs : sep ∉ xs := fun hh => ha (by simp [hh])
    simp only [List.cons_append, List.dropWhile]
    rw [show (x != sep) = true by simpa using hx]
    simpa using ih hxs

/-- Splitting a list at the first occurrence of a separator is unique. -/
lemma split_at_sep {sep : Char} {a₁ b₁ a₂ b₂ : List Char}
    (h₁ : sep ∉ a₁) (h₂ : sep ∉ a₂)
    (h : a₁ ++ sep :: b₁ = a₂ ++ sep :: b₂) : a₁ = a₂ ∧ b₁ = b₂ := by
  have ta := congrArg (List.takeWhile (fun x => x != sep)) h
  rw [takeWhile_ne_append sep a₁ b₁ h₁, takeWhile_ne_append sep a₂ b₂ h₂] at ta
  have da := congrArg (List.dropWhile (fun x => x != sep)) h
  rw [dropWhile_ne_append sep a₁ b₁ h₁, dropWhile_ne_append sep a₂ b₂ h₂] at da
  exact ⟨ta, by injection da⟩

/-- Splitting a list at the last occurrence of a separator is unique. -/
lemma split_at_last_sep {sep : Char} {a₁ b₁ a₂ b₂ : List Char}
    (h₁ : sep ∉ b₁) (h₂ : sep ∉ b₂)
    (h : a₁ ++ sep :: b₁ = a₂ ++ sep :: b₂) : a₁ = a₂ ∧ b₁ = b₂ := by
  have hr := congrArg List.reverse h
  simp only [List.reverse_append, List.reverse_cons] at hr
  rw [List.append_assoc, List.append_assoc, List.singleton_append,
    List.singleton_append] at hr
  have hs := @split_at_sep sep _ _ _ _
    (by simpa using h₁) (by simpa using h₂) hr
  constructor
  · have := congrArg List.reverse hs.2
    simpa using this
  · have := congrArg List.reverse hs.1
    simpa using this

lemma mem_joinAll {α : Type} (c : α) :
    ∀ ls : List (List α), c ∈ joinAll ls ↔ ∃ l ∈ ls, c ∈ l := by
  intro ls
  induction ls with
  | nil => simp [joinAll]
  | cons l r ih => simp [joinAll, ih]

lemma char_toNat_lt (c : Char) : c.toNat < 1114112 := by
  rcases c.valid with h | ⟨_, h2⟩
  · exact lt_trans h (by norm_num)
  · exact h2

lemma char_toNat_injective (a b : Char) (h : a.toNat = b.toNat) : a = b := by
  apply Char.ext_iff.mpr
  unfold Char.toNat at h
  exact UInt32.toNat.inj h

lemma hexDigit_inj (m n : Nat) (hm : m < 16) (hn : n < 16)
    (h : hexDigit m = hexDigit n) : m = n := by
  revert h
  interval_cases m <;> interval_cases n <;> decide

lemma hexDigit_good (n : Nat) (hn : n < 16) :
    hexDigit n ≠ '&' ∧ hexDigit n ≠ '=' ∧ hexDigit n ≠ '?' ∧ hexDigit n ≠ '%' := by
  interval_cases n <;> decide

lemma byte_eq_of_hex (b₁ b₂ : Nat) (h₁ : b₁ < 256) (h₂ : b₂ < 256)
    (hh : hexDigit (b₁ / 16) = hexDigit (b₂ / 16))
    (hl : hexDigit (b₁ % 16) = hexDigit (b₂ % 16)) : b₁ = b₂ := by
  have d1 : b₁ / 16 < 16 := Nat.div_lt_of_lt_mul (by omega)
  have d2 : b₂ / 16 < 16 := Nat.div_lt_of_lt_mul (by omega)
  have m1 : b₁ % 16 < 16 := Nat.mod_lt _ (by norm_num)
  have m2 : b₂ % 16 < 16 := Nat.mod_lt _ (by norm_num)
  have e1 := hexDigit_inj _ _ d1 d2 hh
  have e2 := hexDigit_inj _ _ m1 m2 hl
  omega

/-- Shape of the UTF-8 encoding of a valid scalar value: the byte list
    of each length class together with the range of its leading byte. -/
lemma utf8Bytes_shape (n : Nat) (hn : n < 1114112) :
    (n < 0x80 ∧ utf8Bytes n = [n]) ∨
    (0x80 ≤ n ∧ n < 0x800 ∧ utf8Bytes n = [0xc0 + n / 64, 0x80 + n % 64] ∧
      0xc2 ≤ 0xc0 + n / 64 ∧ 0xc0 + n / 64 < 0xe0) ∨
    (0x800 ≤ n ∧ n < 0x10000 ∧
      utf8Bytes n = [0xe0 + n / 4096, 0x80 + n / 64 % 64, 0x80 + n % 64] ∧
      0xe0 ≤ 0xe0 + n / 4096 ∧ 0xe0 + n / 4096 < 0xf0) ∨
    (0x10000 ≤ n ∧
      utf8Bytes n = [0xf0 + n / 262144, 0x80 + n / 4096 % 64, 0x80 + n / 64 % 64,
        0x80 + n % 64] ∧
      0xf0 ≤ 0xf0 + n / 262144 ∧ 0xf0 + n / 262144 < 0x100) := by
  by_cases h1 : n < 0x80
  · exact Or.inl ⟨h1, by simp [utf8Bytes, h1]⟩
  · by_cases h2 : n < 0x800
    · refine Or.inr (Or.inl ⟨by omega, h2, by simp [utf8Bytes, h1, h2], ?_, ?_⟩)
      · have : 0x80 / 64 ≤ n / 64 := Nat.div_le_div_right (by omega)
        omega
      · have : n / 64 ≤ 0x7ff / 64 := Nat.div_le_div_right (by omega)
        omega
    · by_cases h3 : n < 0x10000
      · refine Or.inr (Or.inr (Or.inl ⟨by omega, h3,
          by simp [utf8Bytes, h1, h2, h3], by omega, ?_⟩))
        have : n / 4096 ≤ 0xffff / 4096 := Nat.div_le_div_right (by omega)
        omega
      · refine Or.inr (Or.inr (Or.inr ⟨by omega,
          by simp [utf8Bytes, h1, h2, h3], by omega, ?_⟩))
        have : n / 262144 ≤ 1114111 / 262144 := Nat.div_le_div_right (by omega)
        omega

lemma percent_join_cons (b : Nat) (r : List Nat) (xs : List Char) :
    joinAll ((b :: r).map percentByte) ++ xs =
      '%' :: hexDigit (b / 16) :: hexDigit (b % 16) ::
        (joinAll (r.map percentByte) ++ xs) := by
  simp [joinAll, percentByte]

lemma cont_byte_eq (x y : Nat) (hx : x < 64) (hy : y < 64)
    (hh : hexDigit ((0x80 + x) / 16) = hexDigit ((0x80 + y) / 16))
    (hl : hexDigit ((0x80 + x) % 16) = hexDigit ((0x80 + y) % 16)) : x = y := by
  have := byte_eq_of_hex (0x80 + x) (0x80 + y) (by omega) (by omega) hh hl
  omega

lemma utf8Bytes_all_lt (n : Nat) (hn : n < 1114112) :
    ∀ b ∈ utf8Bytes n, b < 256 := by
  rcases utf8Bytes_shape n hn with ⟨h, he⟩ | ⟨_, _, he, hlo, hhi⟩ |
      ⟨_, _, he, hlo, hhi⟩ | ⟨_, he, hlo, hhi⟩ <;> rw [he] <;> intro b hb
  · simp at hb; omega
  · have m1 : n % 64 < 64 := Nat.mod_lt _ (by norm_num)
    simp at hb; rcases hb with hb | hb <;> omega
  · have m1 : n % 64 < 64 := Nat.mod_lt _ (by norm_num)
    have m2 : n / 64 % 64 < 64 := Nat.mod_lt _ (by norm_num)
    simp at hb; rcases hb with hb | hb | hb <;> omega
  · have m1 : n % 64 < 64 := Nat.mod_lt _ (by norm_num)
    have m2 : n / 64 % 64 < 64 := Nat.mod_lt _ (by norm_num)
    have m3 : n / 4096 % 64 < 64 := Nat.mod_lt _ (by norm_num)
    simp at hb; rcases hb with hb | hb | hb | hb <;> omega

lemma utf8Bytes_ne_nil (n : Nat) : utf8Bytes n ≠ [] := by
  unfold utf8Bytes
  split_ifs <;> simp

/-- UTF-8 encoding is injective on valid scalar values. -/
lemma utf8Bytes_inj (m n : Nat) (hm : m < 1114112) (hn : n < 1114112)
    (h : utf8Bytes m = utf8Bytes n) : m = n := by
  have d1m : 64 * (m / 64) + m % 64 = m := Nat.div_add_mod m 64
  have d1n : 64 * (n / 64) + n % 64 = n := Nat.div_add_mod n 64
  have dd1m : m / 64 / 64 = m / 4096 := by rw [Nat.div_div_eq_div_mul]
  have dd1n : n / 64 / 64 = n / 4096 := by rw [Nat.div_div_eq_div_mul]
  have d2m : 64 * (m / 64 / 64) + m / 64 % 64 = m / 64 := Nat.div_add_mod (m / 64) 64
  have d2n : 64 * (n / 64 / 64) + n / 64 % 64 = n / 64 := Nat.div_add_mod (n / 64) 64
  have dd2m : m / 4096 / 64 = m / 262144 := by rw [Nat.div_div_eq_div_mul]
  have dd2n : n / 4096 / 64 = n / 262144 := by rw [Nat.div_div_eq_div_mul]
  have d3m : 64 * (m / 4096 / 64) + m / 4096 % 64 = m / 4096 :=
    Nat.div_add_mod (m / 4096) 64
  have d3n : 64 * (n / 4096 / 64) + n / 4096 % 64 = n / 4096 :=
    Nat.div_add_mod (n / 4096) 64
  rcases utf8Bytes_shape m hm with ⟨hm1, hem⟩ | ⟨hm1, hm2, hem, hmlo, hmhi⟩ |
      ⟨hm1, hm2, hem, hmlo, hmhi⟩ | ⟨hm1, hem, hmlo, hmhi⟩ <;>
    rcases utf8Bytes_shape n hn with ⟨hn1, hen⟩ | ⟨hn1, hn2, hen, hnlo, hnhi⟩ |
      ⟨hn1, hn2, hen, hnlo, hnhi⟩ | ⟨hn1, hen, hnlo, hnhi⟩ <;>
    rw [hem, hen] at h <;> simp at h <;> omega

/-- The leading UTF-8 byte determines the length of the encoding. -/
lemma utf8_len_eq_of_head (m n : Nat) (hm : m < 1114112) (hn : n < 1114112)
    (hb : (utf8Bytes m).head? = (utf8Bytes n).head?) :
    (utf8Bytes m).length = (utf8Bytes n).length := by
  rcases utf8Bytes_shape m hm with ⟨hm1, hem⟩ | ⟨hm1, hm2, hem, hmlo, hmhi⟩ |
      ⟨hm1, hm2, hem, hmlo, hmhi⟩ | ⟨hm1, hem, hmlo, hmhi⟩ <;>
    rcases utf8Bytes_shape n hn with ⟨hn1, hen⟩ | ⟨hn1, hn2, hen, hnlo, hnhi⟩ |
      ⟨hn1, hn2, hen, hnlo, hnhi⟩ | ⟨hn1, hen, hnlo, hnhi⟩ <;>
    rw [hem, hen] at hb ⊢ <;> simp at hb ⊢ <;> omega

/-- Percent-encoded byte blocks of equal count are uniquely decodable. -/
lemma percent_join_inj :
    ∀ (l₁ l₂ : List Nat) (xs ys : List Char),
      (∀ b ∈ l₁, b < 256) → (∀ b ∈ l₂, b < 256) → l₁.length = l₂.length →
      joinAll (l₁.map percentByte) ++ xs = joinAll (l₂.map percentByte) ++ ys →
      l₁ = l₂ ∧ xs = ys := by
  intro l₁
  induction l₁ with
  | nil =>
    intro l₂ xs ys _ _ hlen h
    cases l₂ with
    | nil => exact ⟨rfl, by simpa [joinAll] using h⟩
    | cons b r => simp at hlen
  | cons b r ih =>
    intro l₂ xs ys hb1 hb2 hlen h
    cases l₂ with
    | nil => simp at hlen
    | cons b₂ r₂ =>
      rw [percent_join_cons, percent_join_cons] at h
      simp only [List.cons.injEq, true_and] at h
      obtain ⟨hh, hl, ht⟩ := h
      have hbe := byte_eq_of_hex b b₂ (hb1 b (by simp)) (hb2 b₂ (by simp)) hh hl
      have hrec := ih r₂ xs ys (fun x hx => hb1 x (by simp [hx]))
        (fun x hx => hb2 x (by simp [hx])) (by simpa using hlen) ht
      exact ⟨by rw [hbe, hrec.1], hrec.2⟩

/-- The percent block of one character is a prefix code. -/
lemma utf8_blocks_prefix (m n : Nat) (hm : m < 1114112) (hn : n < 1114112)
    (xs ys : List Char)
    (h : joinAll ((utf8Bytes m).map percentByte) ++ xs =
         joinAll ((utf8Bytes n).map percentByte) ++ ys) :
    m = n ∧ xs = ys := by
  obtain ⟨b₁, r₁, he₁⟩ := List.exists_cons_of_ne_nil (utf8Bytes_ne_nil m)
  obtain ⟨b₂, r₂, he₂⟩ := List.exists_cons_of_ne_nil (utf8Bytes_ne_nil n)
  have hb₁ : b₁ < 256 := utf8Bytes_all_lt m hm b₁ (by rw [he₁]; simp)
  have hb₂ : b₂ < 256 := utf8Bytes_all_lt n hn b₂ (by rw [he₂]; simp)
  have hhead : b₁ = b₂ := by
    rw [he₁, he₂, percent_join_cons, percent_join_cons] at h
    simp only [List.cons.injEq, true_and] at h
    exact byte_eq_of_hex b₁ b₂ hb₁ hb₂ h.1 h.2.1
  have hlen : (utf8Bytes m).length = (utf8Bytes n).length :=
    utf8_len_eq_of_head m n hm hn (by rw [he₁, he₂, hhead]; rfl)
  have hlists := percent_join_inj (utf8Bytes m) (utf8Bytes n) xs ys
    (utf8Bytes_all_lt m hm) (utf8Bytes_all_lt n hn) hlen h
  exact ⟨utf8Bytes_inj m n hm hn hlists.1, hlists.2⟩

lemma encodeChar_ne_nil (c : Char) : encodeChar c ≠ [] := by
  unfold encodeChar
  split_ifs
  · simp
  · simp
  · obtain ⟨b, r, he⟩ := List.exists_cons_of_ne_nil (utf8Bytes_ne_nil c.toNat)
    rw [he]
    simp [joinAll, percentByte]

/-- Every character the value encoder emits avoids the three URL
    separators. -/
lemma encodeChar_good (c : Char) :
    ∀ x ∈ encodeChar c, x ≠ '&' ∧ x ≠ '=' ∧ x ≠ '?' := by
  intro x hx
  unfold encodeChar at hx
  split_ifs at hx with h1 h2
  · simp at hx
    subst hx
    refine ⟨?_, ?_, ?_⟩ <;> intro he <;> rw [he] at h1 <;>
      exact absurd h1 (by decide)
  · simp at hx
    subst hx
    exact ⟨by decide, by decide, by decide⟩
  · rw [mem_joinAll] at hx
    obtain ⟨l, hl, hxl⟩ := hx
    obtain ⟨b, hb, rfl⟩ := List.mem_map.mp hl
    have hb256 : b < 256 := utf8Bytes_all_lt c.toNat (char_toNat_lt c) b hb
    have hdiv : b / 16 < 16 := Nat.div_lt_of_lt_mul (by omega)
    have hmod : b % 16 < 16 := Nat.mod_lt _ (by norm_num)
    simp [percentByte] at hxl
    rcases hxl with rfl | rfl | rfl
    · exact ⟨by decide, by decide, by decide⟩
    · have hg := hexDigit_good _ hdiv
      exact ⟨hg.1, hg.2.1, hg.2.2.1⟩
    · have hg := hexDigit_good _ hmod
      exact ⟨hg.1, hg.2.1, hg.2.2.1⟩

/-- The per-character URL encoding is a prefix code. -/
lemma encodeChar_prefix (a b : Char) (xs ys : List Char)
    (h : encodeChar a ++ xs = encodeChar b ++ ys) : a = b ∧ xs = ys := by
  unfold encodeChar at h
  by_cases ha1 : isUrlSafe a = true
  · rw [if_pos ha1] at h
    by_cases hb1 : isUrlSafe b = true
    · rw [if_pos hb1] at h
      simp only [List.singleton_append, List.cons.injEq] at h
      exact ⟨h.1, h.2⟩
    · rw [if_neg hb1] at h
      by_cases hb2 : b = ' '
      · rw [if_pos hb2] at h
        simp only [List.singleton_append, List.cons.injEq] at h
        rw [h.1] at ha1
        exact absurd ha1 (by decide)
      · rw [if_neg hb2] at h
        obtain ⟨b₁, r, he⟩ := List.exists_cons_of_ne_nil (utf8Bytes_ne_nil b.toNat)
        rw [he, percent_join_cons] at h
        simp only [List.singleton_append, List.cons.injEq] at h
        rw [h.1] at ha1
        exact absurd ha1 (by decide)
  · rw [if_neg ha1] at h
    by_cases ha2 : a = ' '
    · rw [if_pos ha2] at h
      by_cases hb1 : isUrlSafe b = true
      · rw [if_pos hb1] at h
        simp only [List.singleton_append, List.cons.injEq] at h
        rw [← h.1] at hb1
        exact absurd hb1 (by decide)
      · rw [if_neg hb1] at h
        by_cases hb2 : b = ' '
        · rw [if_pos hb2] at h
          simp only [List.singleton_append, List.cons.injEq] at h
          exact ⟨ha2.trans hb2.symm, h.2⟩
        · rw [if_neg hb2] at h
          obtain ⟨b₁, r, he⟩ := List.exists_cons_of_ne_nil (utf8Bytes_ne_nil b.toNat)
          rw [he, percent_join_cons] at h
          simp only [List.singleton_append, List.cons.injEq] at h
          exact absurd h.1 (by decide)
    · rw [if_neg ha2] at h
      by_cases hb1 : isUrlSafe b = true
      · rw [if_pos hb1] at h
        obtain ⟨a₁, r, he⟩ := List.exists_cons_of_ne_nil (utf8Bytes_ne_nil a.toNat)
        rw [he, percent_join_cons] at h
        simp only [List.singleton_append, List.cons.injEq] at h
        rw [← h.1] at hb1
        exact absurd hb1 (by decide)
      · rw [if_neg hb1] at h
        by_cases hb2 : b = ' '
        · rw [if_pos hb2] at h
          obtain ⟨a₁, r, he⟩ := List.exists_cons_of_ne_nil (utf8Bytes_ne_nil a.toNat)
          rw [he, percent_join_cons] at h
          simp only [List.singleton_append, List.cons.injEq] at h
          exact absurd h.1.symm (by decide)
        · rw [if_neg hb2] at h
          have hres := utf8_blocks_prefix a.toNat b.toNat (char_toNat_lt a)
            (char_toNat_lt b) xs ys h
          exact ⟨char_toNat_injective a b hres.1, hres.2⟩

lemma string_data_inj (s₁ s₂ : String) (h : s₁.data = s₂.data) : s₁ = s₂ := by
  cases s₁; cases s₂; exact congrArg String.mk h

lemma encodeList_inj :
    ∀ l₁ l₂ : List Char,
      joinAll (l₁.map encodeChar) = joinAll (l₂.map encodeChar) → l₁ = l₂ := by
  intro l₁
  induction l₁ with
  | nil =>
    intro l₂ h
    cases l₂ with
    | nil => rfl
    | cons c r =>
      simp only [List.map_nil, List.map_cons, joinAll] at h
      exact absurd (List.append_eq_nil.mp h.symm).1 (encodeChar_ne_nil c)
  | cons c r ih =>
    intro l₂ h
    cases l₂ with
    | nil =>
      simp only [List.map_nil, List.map_cons, joinAll] at h
      exact absurd (List.append_eq_nil.mp h).1 (encodeChar_ne_nil c)
    | cons c₂ r₂ =>
      simp only [List.map_cons, joinAll] at h
      have hp := encodeChar_prefix c c₂ _ _ h
      rw [hp.1, ih r₂ hp.2]

lemma encodeStr_inj (s₁ s₂ : String) (h : encodeStr s₁ = encodeStr s₂) :
    s₁ = s₂ :=
  string_data_inj s₁ s₂ (encodeList_inj s₁.data s₂.data h)

lemma encodeStr_good (s : String) :
    ∀ x ∈ encodeStr s, x ≠ '&' ∧ x ≠ '=' ∧ x ≠ '?' := by
  intro x hx
  unfold encodeStr at hx
  rw [mem_joinAll] at hx
  obtain ⟨l, hl, hxl⟩ := hx
  obtain ⟨c, _, rfl⟩ := List.mem_map.mp hl
  exact encodeChar_good c x hxl

lemma fieldChars_ne_nil (p : String × String) : fieldChars p ≠ [] := by
  simp [fieldChars]

lemma fieldChars_no_amp (p : String × String) (hk : '&' ∉ p.1.data) :
    '&' ∉ fieldChars p := by
  unfold fieldChars
  intro hm
  rcases List.mem_append.mp hm with hm | hm
  · exact hk hm
  · rcases List.mem_cons.mp hm with hm | hm
    · exact absurd hm (by decide)
    · exact (encodeStr_good p.2 '&' hm).1 rfl

lemma fieldChars_no_qmark (p : String × String) (hk : '?' ∉ p.1.data) :
    '?' ∉ fieldChars p := by
  unfold fieldChars
  intro hm
  rcases List.mem_append.mp hm with hm | hm
  · exact hk hm
  · rcases List.mem_cons.mp hm with hm | hm
    · exact absurd hm (by decide)
    · exact (encodeStr_good p.2 '?' hm).2.2 rfl

lemma fieldChars_inj (p₁ p₂ : String × String)
    (h₁ : '=' ∉ p₁.1.data) (h₂ : '=' ∉ p₂.1.data)
    (h : fieldChars p₁ = fieldChars p₂) : p₁ = p₂ := by
  unfold fieldChars at h
  have hs := split_at_sep h₁ h₂ h
  obtain ⟨k₁, v₁⟩ := p₁
  obtain ⟨k₂, v₂⟩ := p₂
  simp only [Prod.mk.injEq]
  exact ⟨string_data_inj _ _ hs.1, encodeStr_inj _ _ hs.2⟩

lemma fields_map_inj :
    ∀ ps₁ ps₂ : List (String × String),
      (∀ p ∈ ps₁, '=' ∉ p.1.data) → (∀ p ∈ ps₂, '=' ∉ p.1.data) →
      ps₁.map fieldChars = ps₂.map fieldChars → ps₁ = ps₂ := by
  intro ps₁
  induction ps₁ with
  | nil =>
    intro ps₂ _ _ h
    cases ps₂ with
    | nil => rfl
    | cons p r => simp at h
  | cons p r ih =>
    intro ps₂ h₁ h₂ h
    cases ps₂ with
    | nil => simp at h
    | cons p₂ r₂ =>
      simp only [List.map_cons, List.cons.injEq] at h
      rw [fieldChars_inj p p₂ (h₁ p (by simp)) (h₂ p₂ (by simp)) h.1,
        ih r₂ (fun x hx => h₁ x (by simp [hx])) (fun x hx => h₂ x (by simp [hx])) h.2]

lemma serializeFields_inj :
    ∀ fs₁ fs₂ : List (List Char),
      (∀ f ∈ fs₁, f ≠ [] ∧ '&' ∉ f) → (∀ f ∈ fs₂, f ≠ [] ∧ '&' ∉ f) →
      serializeFields fs₁ = serializeFields fs₂ → fs₁ = fs₂ := by
  intro fs₁
  induction fs₁ with
  | nil =>
    intro fs₂ _ h₂ h
    cases fs₂ with
    | nil => rfl
    | cons f r =>
      cases r with
      | nil => exact absurd h.symm (h₂ f (by simp)).1
      | cons g r' =>
        rw [show serializeFields [] = [] from rfl,
          show serializeFields (f :: g :: r') = f ++ '&' :: serializeFields (g :: r')
            from rfl] at h
        exact absurd h.symm (by simp)
  | cons f r ih =>
    intro fs₂ h₁ h₂ h
    cases fs₂ with
    | nil =>
      cases r with
      | nil => exact absurd h (h₁ f (by simp)).1
      | cons g r' =>
        rw [show serializeFields (f :: g :: r') = f ++ '&' :: serializeFields (g :: r')
          from rfl, show serializeFields [] = [] from rfl] at h
        exact absurd h (by simp)
    | cons f₂ r₂ =>
      cases r with
      | nil =>
        cases r₂ with
        | nil =>
          rw [show serializeFields [f] = f from rfl,
            show serializeFields [f₂] = f₂ from rfl] at h
          rw [h]
        | cons g₂ r₂' =>
          rw [show serializeFields [f] = f from rfl,
            show serializeFields (f₂ :: g₂ :: r₂') =
              f₂ ++ '&' :: serializeFields (g₂ :: r₂') from rfl] at h
          have : '&' ∈ f := by rw [h]; simp
          exact absurd this (h₁ f (by simp)).2
      | cons g r' =>
        cases r₂ with
        | nil =>
          rw [show serializeFields (f :: g :: r') =
              f ++ '&' :: serializeFields (g :: r') from rfl,
            show serializeFields [f₂] = f₂ from rfl] at h
          have : '&' ∈ f₂ := by rw [← h]; simp
          exact absurd this (h₂ f₂ (by simp)).2
        | cons g₂ r₂' =>
          rw [show serializeFields (f :: g :: r') =
              f ++ '&' :: serializeFields (g :: r') from rfl,
            show serializeFields (f₂ :: g₂ :: r₂') =
              f₂ ++ '&' :: serializeFields (g₂ :: r₂') from rfl] at h
          have hs := split_at_sep (h₁ f (by simp)).2 (h₂ f₂ (by simp)).2 h
          rw [hs.1, ih (g₂ :: r₂') (fun x hx => h₁ x (by simp [hx]))
            (fun x hx => h₂ x (by simp [hx])) hs.2]

lemma serializeFields_good (c : Char) (hc : c ≠ '&') :
    ∀ fs : List (List Char), (∀ f ∈ fs, c ∉ f) → c ∉ serializeFields fs := by
  intro fs
  induction fs with
  | nil => intro _; simp [serializeFields]
  | cons f r ih =>
    intro hf
    cases r with
    | nil => simpa [serializeFields] using hf f (by simp)
    | cons g r' =>
      rw [show serializeFields (f :: g :: r') = f ++ '&' :: serializeFields (g :: r')
        from rfl]
      intro hm
      rcases List.mem_append.mp hm with hm | hm
      · exact hf f (by simp) hm
      · rcases List.mem_cons.mp hm with hm | hm
        · exact hc hm
        · exact ih (fun x hx => hf x (by simp [hx])) hm

lemma mem_optParam_key (p : String × String) (c : Prop) [Decidable c]
    (k v : String) (hm : p ∈ optParam c k v) : p.1 = k := by
  unfold optParam at hm
  split_ifs at hm
  · simp at hm; rw [hm]
  · simp at hm

/-- Every parameter key the url method appends. -/
lemma rawParams_mem_key (q : Query) (start : Int) (p : String × String)
    (hp : p ∈ rawParams q start) :
    p.1 = "keywords" ∨ p.1 = "location" ∨ p.1 = "f_TPR" ∨ p.1 = "f_SB2" ∨
    p.1 = "f_E" ∨ p.1 = "f_WT" ∨ p.1 = "f_JT" ∨ p.1 = "start" ∨
    p.1 = "sortBy" := by
  simp only [rawParams, List.mem_append] at hp
  rcases hp with ((((((((hp | hp) | hp) | hp) | hp) | hp) | hp) | hp) | hp)
  · exact Or.inl (mem_optParam_key p _ _ _ hp)
  · exact Or.inr (Or.inl (mem_optParam_key p _ _ _ hp))
  · exact Or.inr (Or.inr (Or.inl (mem_optParam_key p _ _ _ hp)))
  · exact Or.inr (Or.inr (Or.inr (Or.inl (mem_optParam_key p _ _ _ hp))))
  · exact Or.inr (Or.inr (Or.inr (Or.inr (Or.inl (mem_optParam_key p _ _ _ hp)))))
  · exact Or.inr (Or.inr (Or.inr (Or.inr (Or.inr (Or.inl
      (mem_optParam_key p _ _ _ hp))))))
  · exact Or.inr (Or.inr (Or.inr (Or.inr (Or.inr (Or.inr (Or.inl
      (mem_optParam_key p _ _ _ hp)))))))
  · simp at hp
    exact Or.inr (Or.inr (Or.inr (Or.inr (Or.inr (Or.inr (Or.inr (Or.inl
      (by rw [hp]))))))))
  · cases hs : q.sortToken with
    | none => rw [hs] at hp; simp at hp
    | some t =>
      rw [hs] at hp
      simp at hp
      exact Or.inr (Or.inr (Or.inr (Or.inr (Or.inr (Or.inr (Or.inr (Or.inr
        (by rw [hp]))))))))

lemma rawParams_keys_good (q : Query) (start : Int) :
    ∀ p ∈ rawParams q start,
      '&' ∉ p.1.data ∧ '=' ∉ p.1.data ∧ '?' ∉ p.1.data := by
  intro p hp
  rcases rawParams_mem_key q start p hp with h | h | h | h | h | h | h | h | h <;>
    rw [h] <;> exact ⟨by decide, by decide, by decide⟩

lemma serializeParams_no_qmark (q : Query) (start : Int) :
    '?' ∉ serializeParams (rawParams q start) := by
  unfold serializeParams
  apply serializeFields_good '?' (by decide)
  intro f hf
  obtain ⟨p, hp, rfl⟩ := List.mem_map.mp hf
  exact fieldChars_no_qmark p (rawParams_keys_good q start p hp).2.2

lemma serializeParams_inj (q₁ q₂ : Query) (s₁ s₂ : Int)
    (h : serializeParams (rawParams q₁ s₁) = serializeParams (rawParams q₂ s₂)) :
    rawParams q₁ s₁ = rawParams q₂ s₂ := by
  unfold serializeParams at h
  have hfs := serializeFields_inj _ _ ?_ ?_ h
  · exact fields_map_inj _ _
      (fun p hp => (rawParams_keys_good q₁ s₁ p hp).2.1)
      (fun p hp => (rawParams_keys_good q₂ s₂ p hp).2.1) hfs
  · intro f hf
    obtain ⟨p, hp, rfl⟩ := List.mem_map.mp hf
    exact ⟨fieldChars_ne_nil p,
      fieldChars_no_amp p (rawParams_keys_good q₁ s₁ p hp).1⟩
  · intro f hf
    obtain ⟨p, hp, rfl⟩ := List.mem_map.mp hf
    exact ⟨fieldChars_ne_nil p,
      fieldChars_no_amp p (rawParams_keys_good q₂ s₂ p hp).1⟩

lemma digitChar_inj_lt (a b : Nat) (ha : a < 10) (hb : b < 10)
    (h : Nat.digitChar a = Nat.digitChar b) : a = b := by
  revert h
  interval_cases a <;> interval_cases b <;> decide

lemma mapDigitChar_inj :
    ∀ l₁ l₂ : List Nat, (∀ x ∈ l₁, x < 10) → (∀ x ∈ l₂, x < 10) →
      l₁.map Nat.digitChar = l₂.map Nat.digitChar → l₁ = l₂ := by
  intro l₁
  induction l₁ with
  | nil =>
    intro l₂ _ _ h
    cases l₂ with
    | nil => rfl
    | cons b r => simp at h
  | cons a r ih =>
    intro l₂ h₁ h₂ h
    cases l₂ with
    | nil => simp at h
    | cons b r₂ =>
      simp only [List.map_cons, List.cons.injEq] at h
      rw [digitChar_inj_lt a b (h₁ a (by simp)) (h₂ b (by simp)) h.1,
        ih r₂ (fun x hx => h₁ x (by simp [hx])) (fun x hx => h₂ x (by simp [hx])) h.2]

lemma jsNatChars_digit_mem (n : Nat) :
    ∀ c ∈ jsNatChars n,
      c ∈ ['0', '1', '2', '3', '4', '5', '6', '7', '8', '9'] := by
  intro c hc
  unfold jsNatChars at hc
  split_ifs at hc with h
  · simp at hc
    subst hc
    decide
  · rw [List.mem_reverse] at hc
    obtain ⟨d, hd, rfl⟩ := List.mem_map.mp hc
    have hlt : d < 10 := Nat.digits_lt_base (by norm_num) hd
    interval_cases d <;> decide

lemma jsNatChars_inj (m n : Nat) (h : jsNatChars m = jsNatChars n) : m = n := by
  unfold jsNatChars at h
  split_ifs at h with h1 h2
  · omega
  · have h' : (Nat.digits 10 n).map Nat.digitChar = ['0'] := by
      have := congrArg List.reverse h
      simpa using this.symm
    have hdig : Nat.digits 10 n = [0] :=
      mapDigitChar_inj _ [0]
        (fun x hx => Nat.digits_lt_base (by norm_num) hx)
        (by simp) (by simpa using h')
    have : n = 0 := by
      have ho := Nat.ofDigits_digits 10 n
      rw [hdig] at ho
      simpa [Nat.ofDigits] using ho.symm
    omega
  · have h' : (Nat.digits 10 m).map Nat.digitChar = ['0'] := by
      have := congrArg List.reverse h
      simpa using this
    have hdig : Nat.digits 10 m = [0] :=
      mapDigitChar_inj _ [0]
        (fun x hx => Nat.digits_lt_base (by norm_num) hx)
        (by simp) (by simpa using h')
    have : m = 0 := by
      have ho := Nat.ofDigits_digits 10 m
      rw [hdig] at ho
      simpa [Nat.ofDigits] using ho.symm
    omega
  · have h' := congrArg List.reverse h
    simp only [List.reverse_reverse] at h'
    have hdig := mapDigitChar_inj _ _
      (fun x hx => Nat.digits_lt_base (by norm_num) hx)
      (fun x hx => Nat.digits_lt_base (by norm_num) hx) h'
    have hm := Nat.ofDigits_digits 10 m
    have hn := Nat.ofDigits_digits 10 n
    rw [hdig] at hm
    omega

lemma jsIntToString_inj (m n : Int) (h : jsIntToString m = jsIntToString n) :
    m = n := by
  unfold jsIntToString at h
  split_ifs at h with h1 h2
  · have hd : '-' :: jsNatChars m.natAbs = '-' :: jsNatChars n.natAbs :=
      congrArg String.data h
    simp only [List.cons.injEq] at hd
    have := jsNatChars_inj _ _ hd.2
    omega
  · have hd : '-' :: jsNatChars m.natAbs = jsNatChars n.toNat :=
      congrArg String.data h
    have hmem : '-' ∈ jsNatChars n.toNat := by
      rw [← hd]
      simp
    have := jsNatChars_digit_mem n.toNat '-' hmem
    simp at this
  · have hd : jsNatChars m.toNat = '-' :: jsNatChars n.natAbs :=
      congrArg String.data h
    have hmem : '-' ∈ jsNatChars m.toNat := by
      rw [hd]
      simp
    have := jsNatChars_digit_mem m.toNat '-' hmem
    simp at this
  · have hd : jsNatChars m.toNat = jsNatChars n.toNat :=
      congrArg String.data h
    have := jsNatChars_inj _ _ hd
    omega

lemma assocLookup_append {β : Type} (k : String) :
    ∀ X Y : List (String × β),
      assocLookup k (X ++ Y) =
        (match assocLookup k X with
         | some v => some v
         | none => assocLookup k Y) := by
  intro X Y
  induction X with
  | nil => rfl
  | cons p r ih =>
    obtain ⟨k', v⟩ := p
    by_cases h : k = k' <;> simp [assocLookup, h, ih]

lemma assocLookup_optParam (k k' v : String) (c : Prop) [Decidable c] :
    assocLookup k (optParam c k' v) = if k = k' ∧ c then some v else none := by
  by_cases hc : c <;> by_cases hk : k = k' <;>
    simp [optParam, assocLookup, hc, hk]

lemma match_ite_option {β : Type} (c : Prop) [Decidable c] (v : β) (y : Option β) :
    (match (if c then some v else none : Option β) with
     | some x => some x
     | none => y) = if c then some v else y := by
  split_ifs <;> rfl

lemma match_ite_option_flip {β : Type} (c : Prop) [Decidable c] (v : β)
    (y : Option β) :
    (match (if c then none else some v : Option β) with
     | some x => some x
     | none => y) = if c then y else some v := by
  split_ifs <;> rfl

lemma assocLookup_sortSeg (q : Query) (k : String) (hk : k ≠ "sortBy") :
    assocLookup k
      ((match q.sortToken with
        | some t => [("sortBy", t)]
        | none => []) : List (String × String)) = none := by
  cases q.sortToken <;> simp [assocLookup, hk]

lemma assocLookup_sortSeg_self (q : Query) :
    assocLookup "sortBy"
      ((match q.sortToken with
        | some t => [("sortBy", t)]
        | none => []) : List (String × String)) = q.sortToken := by
  cases q.sortToken <;> simp [assocLookup]

lemma lookup_keywords (q : Query) (s : Int) :
    assocLookup "keywords" (rawParams q s) =
      if q.keyword ≠ "" then some q.keyword else none := by
  simp [rawParams, assocLookup_append, assocLookup_optParam, match_ite_option, match_ite_option_flip,
    assocLookup, assocLookup_sortSeg q "keywords" (by decide)]

lemma lookup_location (q : Query) (s : Int) :
    assocLookup "location" (rawParams q s) =
      if q.location ≠ "" then some q.location else none := by
  simp [rawParams, assocLookup_append, assocLookup_optParam, match_ite_option, match_ite_option_flip,
    assocLookup, assocLookup_sortSeg q "location" (by decide)]

lemma lookup_fTPR (q : Query) (s : Int) :
    assocLookup "f_TPR" (rawParams q s) =
      if q.getDateSincePosted ≠ "" then some q.getDateSincePosted else none := by
  simp [rawParams, assocLookup_append, assocLookup_optParam, match_ite_option, match_ite_option_flip,
    assocLookup, assocLookup_sortSeg q "f_TPR" (by decide)]

lemma lookup_fSB2 (q : Query) (s : Int) :
    assocLookup "f_SB2" (rawParams q s) =
      if q.getSalary ≠ "" then some q.getSalary else none := by
  simp [rawParams, assocLookup_append, assocLookup_optParam, match_ite_option, match_ite_option_flip,
    assocLookup, assocLookup_sortSeg q "f_SB2" (by decide)]

lemma lookup_fE (q : Query) (s : Int) :
    assocLookup "f_E" (rawParams q s) =
      if q.getExperienceLevel ≠ "" then some q.getExperienceLevel else none := by
  simp [rawParams, assocLookup_append, assocLookup_optParam, match_ite_option, match_ite_option_flip,
    assocLookup, assocLookup_sortSeg q "f_E" (by decide)]

lemma lookup_fWT (q : Query) (s : Int) :
    assocLookup "f_WT" (rawParams q s) =
      if q.getRemoteFilter ≠ "" then some q.getRemoteFilter else none := by
  simp [rawParams, assocLookup_append, assocLookup_optParam, match_ite_option, match_ite_option_flip,
    assocLookup, assocLookup_sortSeg q "f_WT" (by decide)]

lemma lookup_fJT (q : Query) (s : Int) :
    assocLookup "f_JT" (rawParams q s) =
      if q.getJobType ≠ "" then some q.getJobType else none := by
  simp [rawParams, assocLookup_append, assocLookup_optParam, match_ite_option, match_ite_option_flip,
    assocLookup, assocLookup_sortSeg q "f_JT" (by decide)]

lemma lookup_start (q : Query) (s : Int) :
    assocLookup "start" (rawParams q s) =
      some (jsIntToString (s + q.getPage)) := by
  simp [rawParams, assocLookup_append, assocLookup_optParam, match_ite_option, match_ite_option_flip,
    assocLookup, assocLookup_sortSeg q "start" (by decide)]

lemma lookup_sortBy (q : Query) (s : Int) :
    assocLookup "sortBy" (rawParams q s) = q.sortToken := by
  simp [rawParams, assocLookup_append, assocLookup_optParam, match_ite_option, match_ite_option_flip,
    assocLookup, assocLookup_sortSeg_self q]

lemma ifne_some_inj (a b : String)
    (h : (if a ≠ "" then some a else none) = (if b ≠ "" then some b else none)) :
    a = b := by
  by_cases ha : a = "" <;> by_cases hb : b = "" <;> simp [ha, hb] at h <;>
    first
      | (rw [ha, hb])
      | exact h

/-- Claim C3 (amended): url 0, the cache key, encodes exactly the
    URL-relevant normalized query: two queries share a cache key
    precisely when they agree on host, normalized keyword, normalized
    location, every mapped filter token, the sort parameter and the
    page multiplier. The stored limit is not part of the key. -/
theorem cache_key_encodes_query_modulo_limit (q₁ q₂ : Query) :
    Query.url q₁ 0 = Query.url q₂ 0 ↔ q₁.normNoLimit = q₂.normNoLimit := by
  constructor
  · intro h
    have hd := congrArg String.data h
    simp only [Query.url] at hd
    have hsplit := split_at_last_sep (serializeParams_no_qmark q₁ 0)
      (serializeParams_no_qmark q₂ 0) hd
    obtain ⟨hpre, hS⟩ := hsplit
    have hh : q₁.host = q₂.host :=
      string_data_inj _ _
        (List.append_cancel_left (List.append_cancel_right hpre))
    have hps := serializeParams_inj q₁ q₂ 0 0 hS
    have hkw : q₁.keyword = q₂.keyword := by
      have := congrArg (assocLookup "keywords") hps
      rw [lookup_keywords, lookup_keywords] at this
      exact ifne_some_inj _ _ this
    have hloc : q₁.location = q₂.location := by
      have := congrArg (assocLookup "location") hps
      rw [lookup_location, lookup_location] at this
      exact ifne_some_inj _ _ this
    have hdate : q₁.getDateSincePosted = q₂.getDateSincePosted := by
      have := congrArg (assocLookup "f_TPR") hps
      rw [lookup_fTPR, lookup_fTPR] at this
      exact ifne_some_inj _ _ this
    have hsal : q₁.getSalary = q₂.getSalary := by
      have := congrArg (assocLookup "f_SB2") hps
      rw [lookup_fSB2, lookup_fSB2] at this
      exact ifne_some_inj _ _ this
    have hexp : q₁.getExperienceLevel = q₂.getExperienceLevel := by
      have := congrArg (assocLookup "f_E") hps
      rw [lookup_fE, lookup_fE] at this
      exact ifne_some_inj _ _ this
    have hrem : q₁.getRemoteFilter = q₂.getRemoteFilter := by
      have := congrArg (assocLookup "f_WT") hps
      rw [lookup_fWT, lookup_fWT] at this
      exact ifne_some_inj _ _ this
    have hjt : q₁.getJobType = q₂.getJobType := by
      have := congrArg (assocLookup "f_JT") hps
      rw [lookup_fJT, lookup_fJT] at this
      exact ifne_some_inj _ _ this
    have hsort : q₁.sortToken = q₂.sortToken := by
      have := congrArg (assocLookup "sortBy") hps
      rw [lookup_sortBy, lookup_sortBy] at this
      exact this
    have hpage : q₁.page = q₂.page := by
      have := congrArg (assocLookup "start") hps
      rw [lookup_start, lookup_start] at this
      simp only [Option.some.injEq] at this
      have hi := jsIntToString_inj _ _ this
      simp only [Query.getPage] at hi
      omega
    simp only [Query.normNoLimit]
    rw [hh, hkw, hloc, hdate, hsal, hexp, hrem, hjt, hsort, hpage]
  · intro h
    have hh : q₁.host = q₂.host := congrArg NormQuery.host h
    have hkw : q₁.keyword = q₂.keyword := congrArg NormQuery.keyword h
    have hloc : q₁.location = q₂.location := congrArg NormQuery.location h
    have hdate : q₁.getDateSincePosted = q₂.getDateSincePosted :=
      congrArg NormQuery.dateToken h
    have hsal : q₁.getSalary = q₂.getSalary := congrArg NormQuery.salaryToken h
    have hexp : q₁.getExperienceLevel = q₂.getExperienceLevel :=
      congrArg NormQuery.experienceToken h
    have hrem : q₁.getRemoteFilter = q₂.getRemoteFilter :=
      congrArg NormQuery.remoteToken h
    have hjt : q₁.getJobType = q₂.getJobType := congrArg NormQuery.jobTypeToken h
    have hsort : q₁.sortToken = q₂.sortToken := congrArg NormQuery.sortParam h
    have hpage : q₁.page = q₂.page := congrArg NormQuery.page h
    have hparams : rawParams q₁ 0 = rawParams q₂ 0 := by
      simp only [rawParams, Query.getPage]
      rw [hkw, hloc, hdate, hsal, hexp, hrem, hjt, hsort, hpage]
    simp only [Query.url]
    rw [hparams, hh]

/-- Witness instantiating the amended C3 at two concrete queries. -/
theorem cache_key_encodes_query_modulo_limit_witness :
    (Query.ofObject { keyword := some "x" }).url 0 =
        (Query.ofObject { keyword := some "y" }).url 0 ↔
      (Query.ofObject { keyword := some "x" }).normNoLimit =
        (Query.ofObject { keyword := some "y" }).normNoLimit :=
  cache_key_encodes_query_modulo_limit _ _

/-- Counterexample for C3 as stated: two queries whose normalized forms
    differ (in the limit field) produce the same cache key. -/
theorem cache_key_ignores_limit :
    (Query.ofObject { keyword := some "x", limit := some (.num 10) }).url 0 =
      (Query.ofObject { keyword := some "x", limit := some (.num 20) }).url 0 ∧
    (Query.ofObject { keyword := some "x", limit := some (.num 10) }).limit ≠
      (Query.ofObject { keyword := some "x", limit := some (.num 20) }).limit ∧
    Query.ofObject { keyword := some "x", limit := some (.num 10) } ≠
      Query.ofObject { keyword := some "x", limit := some (.num 20) } :=
  ⟨rfl, by decide, by decide⟩

end LinkedIn
